import Mathlib

/-!
# Verification of the noise-adaptive compiler passes

Shallow embedding of the three passes of the `noise-adaptive-compiler`
repository (`src/passes/NoiseAdaptiveSwap.py`, `src/passes/ChainLayout.py`,
`src/passes/TransformCxCascade.py`) and of the pass driver's constructor call
(`src/pass_manager/noise_pass_manager_3.py`), together with proofs and
refutations of the frozen claims.

Conventions of the embedding:
* Python gate nodes (`DAGNode`) become the `Gate` structure; the single
  register `q` lets us identify virtual wires with natural numbers.
* A qiskit `Layout` restricted to that register is the list `layout` with
  `layout[v] = physical qubit of virtual wire v`; `Layout.swap` on two
  physical qubits maps over the list.
* The coupling graph, its distance matrix, the Floyd-Warshall predecessor
  table (`swap_paths`), the normalised reliability table (`swap_reliabs`) and
  `shortest_undirected_path` are produced by networkx / qiskit, which the spec
  lists as external collaborators; they are fields of the `Device` structure,
  and the properties of them that proofs need are stated explicitly
  (`DeviceOK`).
* Fallible Python code (KeyError, TypeError, ZeroDivisionError, AttributeError,
  IndexError, unbounded loops) is modelled with `Option`/`Except`: `none`
  means the Python call raises (or, for the fuel-limited loops, does not
  terminate within the given fuel).
* Gate parameters may be the symbolic constant `pi` (used by `U2Gate(0, pi)`),
  hence the `Param` type.
-/

namespace NoiseCompiler

/-- A gate parameter: a rational literal or the symbolic constant `pi`. -/
inductive Param where
  | rat (q : ℚ)
  | pi
deriving DecidableEq, Repr

/-- A gate node of the circuit DAG (`DAGNode` restricted to the fields the
passes read): the operation name, ordered quantum operands (wire indices of
the single register `q`), classical operands, parameter list and guard
condition. -/
structure Gate where
  name : String
  qargs : List Nat
  cargs : List Nat
  params : List Param
  cond : Option (Nat × Nat)
deriving DecidableEq, Repr

/-- The names treated as opaque multi-wire markers by the passes
(`gate.name in ["barrier", "snapshot", "save", "load", "noise"]`). -/
def isSpecial (g : Gate) : Bool :=
  g.name == "barrier" || g.name == "snapshot" || g.name == "save" ||
    g.name == "load" || g.name == "noise"

/-- The identity of a gate for multiset comparisons: everything except its
quantum operands (which routing rewrites). -/
def ident (g : Gate) : String × List Nat × List Param × Option (Nat × Nat) :=
  (g.name, g.cargs, g.params, g.cond)

/-- Gates that survive classification: a special (barrier-like) gate with an
empty operand list is silently dropped by `update_to_map` /
`update_to_execute` (`if not qargs: continue`). -/
def keepG (g : Gate) : Bool :=
  !(isSpecial g && g.qargs.isEmpty)

/-- A gate counted by `score_swap_alpha`: non-special with exactly two
quantum operands. -/
def countedGate (g : Gate) : Bool :=
  !isSpecial g && g.qargs.length == 2

/-- A layout: position `v` holds the physical qubit assigned to virtual
wire `v` (qiskit's `Layout` over the single register `q`). -/
abbrev Layout := List Nat

/-- `Layout.__getitem__` / `get_phys_qubit`: the physical qubit of a virtual
wire. -/
def physOf (layout : Layout) (v : Nat) : Nat := layout.getD v 0

/-- `Layout.swap` called with two physical qubits: the virtual wires mapped
to them exchange their images. -/
def layoutSwap (layout : Layout) (a b : Nat) : Layout :=
  layout.map (fun p => if p = a then b else if p = b then a else p)

/-- `execute_gate`: a deep copy of the gate whose quantum operands are
replaced by the register qubits at their physical positions (`get_reg`). -/
def executeGate (layout : Layout) (g : Gate) : Gate :=
  { g with qargs := g.qargs.map (physOf layout) }

/-- The device model consumed by `NoiseAdaptiveSwap.__init__`: the coupling
graph (neighbour lists), its hop-distance matrix and diameter
(`_max_distance`), the Floyd-Warshall predecessor table over swap
reliabilities (`swap_paths`, `swap_paths[i][j] = none` models a `KeyError`),
the normalised reliability table (`swap_reliabs`) and qiskit's
`shortest_undirected_path`.  All of these are computed once at construction
from networkx / qiskit (external collaborators). -/
structure Device where
  neighbors : Nat → List Nat
  distance : Nat → Nat → Nat
  maxDistance : Nat
  swapPaths : Nat → Nat → Option Nat
  swapReliabs : Nat → Nat → ℚ
  shortestPath : Nat → Nat → List Nat

/-- The configuration of `NoiseAdaptiveSwap` after a successful `__init__`. -/
structure Config where
  searchDepth : Nat
  nSwaps : Nat
  nextGates : Nat
  alpha : ℚ
  front : Bool

/-! ## Classification (`update_to_map` / `update_to_execute`)

Both walk the pending gates with a `busy` set.  Opaque markers with operands
follow the busy discipline, zero-operand ones are dropped; one-qubit gates
and adjacent two-qubit gates are executed; a remote two-qubit gate enters
`to_map` (and, in `update_to_execute`, stays in `to_execute` as well); any
gate touching a busy wire is deferred.  A non-special gate whose operand
count is not 1 or 2 makes Python's `distance(*qargs)` call raise, which the
model signals with `none`. -/

/-- `update_to_execute` (single-gate mode classification). -/
def updateToExecGo (dev : Device) (layout : Layout) :
    List Gate → List Nat → Option (List Gate × List Gate × List Gate)
  | [], _ => some ([], [], [])
  | g :: rest, busy =>
    if isSpecial g then
      if g.qargs.isEmpty then updateToExecGo dev layout rest busy
      else if g.qargs.any (· ∈ busy) then
        match updateToExecGo dev layout rest (busy ++ g.qargs) with
        | none => none
        | some (te, tm, ex) => some (g :: te, tm, ex)
      else
        match updateToExecGo dev layout rest busy with
        | none => none
        | some (te, tm, ex) => some (te, tm, executeGate layout g :: ex)
    else if g.qargs.any (· ∈ busy) then
      match updateToExecGo dev layout rest (busy ++ g.qargs) with
      | none => none
      | some (te, tm, ex) => some (g :: te, tm, ex)
    else
      match g.qargs with
      | [_] =>
        match updateToExecGo dev layout rest busy with
        | none => none
        | some (te, tm, ex) => some (te, tm, executeGate layout g :: ex)
      | [q1, q2] =>
        if dev.distance (physOf layout q1) (physOf layout q2) = 1 then
          match updateToExecGo dev layout rest busy with
          | none => none
          | some (te, tm, ex) => some (te, tm, executeGate layout g :: ex)
        else
          match updateToExecGo dev layout rest (busy ++ g.qargs) with
          | none => none
          | some (te, tm, ex) => some (g :: te, g :: tm, ex)
      | _ => none

/-- `update_to_map` (front-layer mode classification); the caller prepends
the previous front layer (`temp = to_map.copy(); temp.extend(gates)`). -/
def updateToMapGo (dev : Device) (layout : Layout) :
    List Gate → List Nat → Option (List Gate × List Gate × List Gate)
  | [], _ => some ([], [], [])
  | g :: rest, busy =>
    if isSpecial g then
      if g.qargs.isEmpty then updateToMapGo dev layout rest busy
      else if g.qargs.any (· ∈ busy) then
        match updateToMapGo dev layout rest (busy ++ g.qargs) with
        | none => none
        | some (te, tm, ex) => some (g :: te, tm, ex)
      else
        match updateToMapGo dev layout rest busy with
        | none => none
        | some (te, tm, ex) => some (te, tm, executeGate layout g :: ex)
    else if g.qargs.any (· ∈ busy) then
      match updateToMapGo dev layout rest (busy ++ g.qargs) with
      | none => none
      | some (te, tm, ex) => some (g :: te, tm, ex)
    else
      match g.qargs with
      | [_] =>
        match updateToMapGo dev layout rest busy with
        | none => none
        | some (te, tm, ex) => some (te, tm, executeGate layout g :: ex)
      | [q1, q2] =>
        if dev.distance (physOf layout q1) (physOf layout q2) = 1 then
          match updateToMapGo dev layout rest busy with
          | none => none
          | some (te, tm, ex) => some (te, tm, executeGate layout g :: ex)
        else
          match updateToMapGo dev layout rest (busy ++ g.qargs) with
          | none => none
          | some (te, tm, ex) => some (te, g :: tm, ex)
      | _ => none

/-! ## Swap scoring (`score_swap_alpha`)

The score of a candidate swap is `alpha * reliab + (1 - alpha) * (1 - dist)`.
`reliab` averages the normalised reliabilities of the `to_map` gates and of
the first `next_gates` counted gates of `to_execute`; `dist` averages the
normalised excess distances.  Python raises when the reliability list is
empty (`reduce` over `[]`), when no gate is counted (`distance /= count`
with `count == 0`) or when `self._max_distance == 1` and a non-adjacent gate
contributes (`/(self._max_distance-1)`); the model returns `none` there. -/

/-- The normalised reliability a gate contributes
(`swap_reliabs[phys(q0)][phys(q1)]`). -/
def gateReliab (dev : Device) (layout : Layout) (g : Gate) : ℚ :=
  dev.swapReliabs (physOf layout (g.qargs.getD 0 0)) (physOf layout (g.qargs.getD 1 0))

/-- The normalised excess-distance a gate contributes:
`0` when adjacent, `(d - 1)/(max_distance - 1)` otherwise (`none` models the
`ZeroDivisionError` when `max_distance = 1`). -/
def distContrib (dev : Device) (layout : Layout) (g : Gate) : Option ℚ :=
  if dev.distance (physOf layout (g.qargs.getD 0 0)) (physOf layout (g.qargs.getD 1 0)) = 1
  then some 0
  else if dev.maxDistance = 1 then none
  else some
    (((dev.distance (physOf layout (g.qargs.getD 0 0)) (physOf layout (g.qargs.getD 1 0)) : ℚ) - 1) /
      ((dev.maxDistance : ℚ) - 1))

/-- The `for gate in to_execute` distance loop of `score_swap_alpha`: counted
gates contribute distance and decrement the `next_gates` counter; the loop
stops when the counter reaches exactly 0. -/
def distExecLoop (dev : Device) (layout : Layout) :
    List Gate → Int → ℚ → Nat → Option (ℚ × Nat)
  | [], _, acc, cnt => some (acc, cnt)
  | g :: rest, ng, acc, cnt =>
    if countedGate g then
      match distContrib dev layout g with
      | none => none
      | some c =>
        if ng - 1 = 0 then some (acc + c, cnt + 1)
        else distExecLoop dev layout rest (ng - 1) (acc + c) (cnt + 1)
    else distExecLoop dev layout rest ng acc cnt

/-- The `if to_map:` distance loop of `score_swap_alpha`: every front-layer
gate is counted unconditionally. -/
def distMapLoop (dev : Device) (layout : Layout) :
    List Gate → ℚ → Option ℚ
  | [], acc => some acc
  | g :: rest, acc =>
    match distContrib dev layout g with
    | none => none
    | some c => distMapLoop dev layout rest (acc + c)

/-- `score_swap_alpha` (which `score_swap` forwards to): copy the layout,
apply the candidate swap, and blend mean reliability with mean progress. -/
def scoreSwapAlpha (cfg : Config) (dev : Device) (s : Nat × Nat)
    (layout : Layout) (toExec toMap : List Gate) : Option ℚ :=
  let temp := layoutSwap layout s.1 s.2
  let reliabs := toMap.map (gateReliab dev temp) ++
    (((toExec.take cfg.nextGates).filter countedGate).map (gateReliab dev temp))
  if reliabs.isEmpty then none
  else
    let reliab := reliabs.sum / (reliabs.length : ℚ)
    match distMapLoop dev temp toMap 0 with
    | none => none
    | some dm =>
      match distExecLoop dev temp toExec (cfg.nextGates : Int) dm toMap.length with
      | none => none
      | some (dx, cnt) =>
        if cnt = 0 then none
        else some (cfg.alpha * reliab + (1 - cfg.alpha) * (1 - dx / (cnt : ℚ)))

/-- A scored candidate swap: the pair of physical qubits and its score. -/
abbrev Cand := (Nat × Nat) × ℚ

/-! ## Candidate enumeration

`possible_swaps` (single-gate mode) creates ONE dict
`swap = {'swap': None, 'score': None}` and mutates it for every candidate, so
`extra_swaps` and `possible_swaps` only ever hold aliases of that record.
Consequently `extra_swaps.remove(swap)` removes one alias, the two
`if swap not in possible_swaps` guards are always false (the record is a
member of the list it was just appended to), and the returned list is
`min(n_swaps, deg(a)+deg(b))` copies of the last value written: with
`n_swaps = 1` the pair `(a, pred(b,a))`, with `n_swaps = 2` the pair
`(b, pred(a,b))`, and with `n_swaps >= 3` the pair
`(b, shortest_path[-2])`.  The model reproduces exactly this, evaluating
every intermediate `score_swap` call (whose failure would abort the Python
call) and signalling index/key errors with `none`. -/

/-- The `extra_swaps` loop of `possible_swaps`: score the swap of `base`
with each of its neighbours in turn (every call mutates the shared record
and its failure aborts the enclosing Python call). -/
def extraSwapScores (cfg : Config) (dev : Device) (layout : Layout)
    (toExec : List Gate) (base : Nat) : List Nat → Option (List ℚ)
  | [] => some []
  | q :: rest =>
    match scoreSwapAlpha cfg dev (base, q) layout toExec [] with
    | none => none
    | some sc =>
      match extraSwapScores cfg dev layout toExec base rest with
      | none => none
      | some others => some (sc :: others)

/-- Third block of `possible_swaps` (`n_swaps >= 3`): both shortest-path
mutations of the shared record happen (their `not in` guards are always
false), then the fill loop appends further aliases of the record, whose
final value is `(b, shortest_path[-2])`; `shortest_path[1]` /
`shortest_path[-2]` on a path shorter than 2 raises. -/
def psShortest (cfg : Config) (dev : Device) (layout : Layout)
    (toExec : List Gate) (a b degSum : Nat) : Option (List Cand) :=
  if (dev.shortestPath a b).length < 2 then none
  else
    match scoreSwapAlpha cfg dev (a, (dev.shortestPath a b).getD 1 0) layout toExec [] with
    | none => none
    | some _ =>
      match scoreSwapAlpha cfg dev
        (b, (dev.shortestPath a b).getD ((dev.shortestPath a b).length - 2) 0)
        layout toExec [] with
      | none => none
      | some s4 =>
        some (List.replicate (min cfg.nSwaps degSum)
          ((b, (dev.shortestPath a b).getD ((dev.shortestPath a b).length - 2) 0), s4))

/-- Second block of `possible_swaps`: the most-reliable step from `b`
toward `a` overwrites the record; with `n_swaps = 2` the call returns two
aliases of it. -/
def psSecond (cfg : Config) (dev : Device) (layout : Layout)
    (toExec : List Gate) (a b degSum : Nat) : Option (List Cand) :=
  match dev.swapPaths a b with
  | none => none
  | some p2 =>
    match scoreSwapAlpha cfg dev (b, p2) layout toExec [] with
    | none => none
    | some s2 =>
      if degSum < 2 then none
      else if cfg.nSwaps = 2 then some (List.replicate 2 ((b, p2), s2))
      else psShortest cfg dev layout toExec a b degSum

/-- First block of `possible_swaps`: the most-reliable step from `a`
toward `b`; with `n_swaps = 1` the call returns the single alias (this
early return skips the final sort). -/
def psFirst (cfg : Config) (dev : Device) (layout : Layout)
    (toExec : List Gate) (a b degSum : Nat) : Option (List Cand) :=
  match dev.swapPaths b a with
  | none => none
  | some p1 =>
    match scoreSwapAlpha cfg dev (a, p1) layout toExec [] with
    | none => none
    | some s1 =>
      if degSum < 1 then none
      else if cfg.nSwaps = 1 then some [((a, p1), s1)]
      else psSecond cfg dev layout toExec a b degSum

/-- `possible_swaps` (single-gate mode) with the shared-record aliasing of
the source: after scoring the neighbour swaps of both endpoints into
`extra_swaps`, the three candidate blocks run in order. -/
def possibleSwaps (cfg : Config) (dev : Device) (remote : Gate)
    (layout : Layout) (toExec : List Gate) : Option (List Cand) :=
  if cfg.nSwaps < 1 then none
  else
    match extraSwapScores cfg dev layout toExec
        (physOf layout (remote.qargs.getD 0 0))
        (dev.neighbors (physOf layout (remote.qargs.getD 0 0))),
      extraSwapScores cfg dev layout toExec
        (physOf layout (remote.qargs.getD 1 0))
        (dev.neighbors (physOf layout (remote.qargs.getD 1 0))) with
    | some _, some _ =>
      psFirst cfg dev layout toExec
        (physOf layout (remote.qargs.getD 0 0))
        (physOf layout (remote.qargs.getD 1 0))
        ((dev.neighbors (physOf layout (remote.qargs.getD 0 0))).length +
          (dev.neighbors (physOf layout (remote.qargs.getD 1 0))).length)
    | _, _ => none

/-- The candidate loop of `new_possible_swaps` (front mode): walk the pairs
`(q, v)` (`q` over the physical wires of the front layer, `v` over the
neighbours of `q`), skipping pairs already proposed (or equal to the last
applied swap, seeded in `swapQubits`), each scored with a fresh record. -/
def npsGo (cfg : Config) (dev : Device) (layout : Layout)
    (toExec toMap : List Gate) :
    List (Nat × Nat) → List (Nat × Nat) → Option (List Cand)
  | [], _ => some []
  | (q, v) :: rest, sq =>
    if (q, v) ∈ sq ∨ (v, q) ∈ sq then npsGo cfg dev layout toExec toMap rest sq
    else
      match scoreSwapAlpha cfg dev (q, v) layout toExec toMap with
      | none => none
      | some s =>
        match npsGo cfg dev layout toExec toMap rest (sq ++ [(q, v)]) with
        | none => none
        | some others => some (((q, v), s) :: others)

/-- `new_possible_swaps` (front mode): enumerate, score, sort by score
descending (Python's stable `sorted(..., reverse=True)`) and keep the first
`n` (the call site never overrides the default `n=4`). -/
def lastSwapSeed : Option (Nat × Nat) → List (Nat × Nat)
  | some p => [p]
  | none => []

def newPossibleSwaps (cfg : Config) (dev : Device) (toMap : List Gate)
    (layout : Layout) (toExec : List Gate) (n : Nat)
    (lastSwap : Option (Nat × Nat)) : Option (List Cand) :=
  match npsGo cfg dev layout toExec toMap
      ((toMap.flatMap (fun g => g.qargs.map (physOf layout))).flatMap
        (fun q => (dev.neighbors q).map (fun v => (q, v))))
      (lastSwapSeed lastSwap) with
  | none => none
  | some cands => some ((cands.mergeSort (fun c1 c2 => decide (c2.2 ≤ c1.2))).take n)

/-! ## The look-ahead search (`search_layout`) and the main loop (`run`) -/

/-- The record a `search_layout` call returns (the transient `swaps` entry of
the leaf dict is dropped by the non-leaf rebuild and never read). -/
structure Step where
  toMap : List Gate
  toExec : List Gate
  executed : List Gate
  score : ℚ
  layout : Layout
deriving Repr

/-- The explicit `Swap` gate a chosen candidate materialises as
(`execute_swap_gate`). -/
def swapGateOf (p : Nat × Nat) : Gate :=
  { name := "swap", qargs := [p.1, p.2], cargs := [], params := [], cond := none }

/-- The classification step of `search_layout`: front mode re-walks
`to_map + gates` with `update_to_map`, single-gate mode walks `gates` with
`update_to_execute`. -/
def classify (cfg : Config) (dev : Device) (tmIn : List Gate)
    (layout : Layout) (gates : List Gate) :
    Option (List Gate × List Gate × List Gate) :=
  if cfg.front then updateToMapGo dev layout (tmIn ++ gates) []
  else updateToExecGo dev layout gates []

/-- The argmax of `search_layout`'s candidate loop: strict improvement on
the (already multiplied) scores, first candidate wins ties. -/
def pickBest : List (Cand × Step) → Option (Cand × Step)
  | [] => none
  | first :: rest =>
    some (rest.foldl (fun best cs => if cs.2.score > best.2.score then cs else best) first)

/-- The candidate loop of `search_layout`: recurse (`recur` is the search
at depth `iter`) on every candidate with the swapped layout (front mode
keeps the same front layer, single-gate mode resets it) and multiply the
candidate's score into the child's. -/
def searchChildren (cfg : Config) (dev : Device)
    (recur : List Gate → Layout → List Gate → Option (Nat × Nat) → Option Step) :
    List Cand → List Gate → Layout → List Gate → Option (List (Cand × Step))
  | [], _, _, _ => some []
  | c :: rest, tm, layout, te =>
    match recur (if cfg.front then tm else [])
      (layoutSwap layout c.1.1 c.1.2) te (some c.1) with
    | none => none
    | some st =>
      match searchChildren cfg dev recur rest tm layout te with
      | none => none
      | some others => some ((c, { st with score := c.2 * st.score }) :: others)

/-- `search_layout`: classify, stop at depth 0 or when the front layer is
mappable, otherwise enumerate candidate swaps, recurse on each with the
swapped layout, multiply the swap's score into the child's and keep the
best; the chosen swap is materialised between the gates executed here and
the best child's gates.  `none` models a raise anywhere below (including
`execute_swap_gate(None)` when no candidate exists). -/
def searchLayout (cfg : Config) (dev : Device) :
    Nat → List Gate → Layout → List Gate → Option (Nat × Nat) → Option Step
  | 0, tmIn, layout, gates, _ =>
    match classify cfg dev tmIn layout gates with
    | none => none
    | some (te, tm, ex) => some ⟨tm, te, ex, 1, layout⟩
  | iter + 1, tmIn, layout, gates, lastSwap =>
    match classify cfg dev tmIn layout gates with
    | none => none
    | some (te, tm, ex) =>
      if tm.isEmpty then some ⟨tm, te, ex, 1, layout⟩
      else
        match (if cfg.front then newPossibleSwaps cfg dev tm layout te 4 lastSwap
          else match tm with
            | g :: _ => possibleSwaps cfg dev g layout te
            | [] => none) with
        | none => none
        | some cands =>
          match searchChildren cfg dev (searchLayout cfg dev iter) cands tm layout te with
          | none => none
          | some children =>
            match pickBest children with
            | none => none
            | some (bc, bst) =>
              some ⟨bst.toMap, bst.toExec, ex ++ [swapGateOf bc.1] ++ bst.executed,
                bst.score, bst.layout⟩

/-- The `while to_map:` loop of `run` in front-layer mode (fuel-limited;
`none` means the loop did not finish within the fuel or a step raised). -/
def runLoopFront (cfg : Config) (dev : Device) :
    Nat → Layout → List Gate → List Gate → List Gate → Option (List Gate)
  | 0, _, _, _, _ => none
  | fuel + 1, layout, tm, te, acc =>
    if tm.isEmpty then some acc
    else
      match searchLayout cfg dev cfg.searchDepth tm layout te none with
      | none => none
      | some st => runLoopFront cfg dev fuel st.layout st.toMap st.toExec (acc ++ st.executed)

/-- The `while to_execute:` loop of `run` in single-gate mode. -/
def runLoopSingle (cfg : Config) (dev : Device) :
    Nat → Layout → List Gate → List Gate → Option (List Gate)
  | 0, _, _, _ => none
  | fuel + 1, layout, te, acc =>
    if te.isEmpty then some acc
    else
      match searchLayout cfg dev cfg.searchDepth [] layout te none with
      | none => none
      | some st => runLoopSingle cfg dev fuel st.layout st.toExec (acc ++ st.executed)

/-- `NoiseAdaptiveSwap.run` on an accepted DAG: `gates` is the serial
layerisation of the input, `nq` the size of the register `q` (the register
and capacity checks that precede this code gate acceptance), the initial
layout is trivial, and the returned list is the `executed` gates applied to
the fresh DAG.  The pass does not always terminate (the look-ahead may
cycle), hence the fuel. -/
def runRouter (cfg : Config) (dev : Device) (nq : Nat) (gates : List Gate)
    (fuel : Nat) : Option (List Gate) :=
  let layout0 : Layout := List.range nq
  if cfg.front then
    match updateToMapGo dev layout0 ([] ++ gates) [] with
    | none => none
    | some (te, tm, ex) => runLoopFront cfg dev fuel layout0 tm te ex
  else
    runLoopSingle cfg dev fuel layout0 gates []

end NoiseCompiler

namespace NoiseCompiler

def cxG (c t : Nat) : Gate :=
  { name := "cx", qargs := [c, t], cargs := [], params := [], cond := none }

def dev2 : Device where
  neighbors q := match q with | 0 => [1] | 1 => [0] | _ => []
  distance u v := max u v - min u v
  maxDistance := 1
  swapPaths _ _ := none
  swapReliabs _ _ := 1
  shortestPath _ _ := []

def dev4 : Device where
  neighbors q := match q with | 0 => [1] | 1 => [0, 2] | 2 => [1, 3] | 3 => [2] | _ => []
  distance u v := max u v - min u v
  maxDistance := 3
  swapPaths i j :=
    if i = j ∨ 4 ≤ i ∨ 4 ≤ j then none
    else if i < j then some (j - 1) else some (j + 1)
  swapReliabs _ _ := 1
  shortestPath a b :=
    if 4 ≤ a ∨ 4 ≤ b then []
    else if a ≤ b then List.range' a (b - a + 1)
    else (List.range' b (a - b + 1)).reverse

def cfgS : Config := { searchDepth := 4, nSwaps := 4, nextGates := 5, alpha := 1/2, front := false }

/-- Gates other than the inserted `Swap`s. -/
def notSwap (g : Gate) : Bool := g.name != "swap"

/-- The properties of the externally computed device tables that the
adjacency invariant relies on; each is a property of genuine graph
computations: a neighbour is at distance 1, the Floyd-Warshall predecessor
`swap_paths[i][j]` of `j` is adjacent to `j`, and the second-to-last vertex
of a shortest path ending at `b` is adjacent to `b`. -/
def DeviceOK (dev : Device) : Prop :=
  (∀ q v, v ∈ dev.neighbors q → dev.distance q v = 1) ∧
  (∀ i j p, dev.swapPaths i j = some p → dev.distance j p = 1) ∧
  (∀ a b, 2 ≤ (dev.shortestPath a b).length →
    dev.distance b ((dev.shortestPath a b).getD ((dev.shortestPath a b).length - 2) 0) = 1)

end NoiseCompiler

namespace NoiseCompiler

/-! ## ChainLayout (`src/passes/ChainLayout.py`)

The pass owns an undirected coupling graph (`self.coupling_graph`, a
networkx view) and, when backend properties are present, a total table
`cx_reliab` of CX reliabilities.  Both external collaborators enter the
model as function-valued fields: `neighbors q` is the adjacency list of
`q` in iteration order, `shortestPath a b` is networkx's
`shortest_path(G, a, b)` (a vertex list from `a` to `b`). -/

structure ChainDev where
  neighbors : Nat → List Nat
  shortestPath : Nat → Nat → List Nat

/-- The ways `ChainLayout.chain` can fail to return: the capacity
`TranspilerError`, the `AttributeError` on the undefined
`self._undirected_map` (line 134), an `IndexError` on `full_map[-2]` /
`to_explore[0]` / `full_map[-1]`, or non-termination (fuel). -/
inductive ChainFail where
  | capacity
  | attrErr
  | idxErr
  | fuel
deriving DecidableEq, Repr

/-- The mutable state of `ChainLayout.chain`'s main loop.  `explored` is a
Python set that only ever gains fresh elements, so a duplicate-free list
in insertion order carries the same information; `isoData` is
`isolated_with_data`. -/
structure ChainSt where
  current : Nat
  fullMap : List Nat
  isolated : List Nat
  isoData : List (Nat × Nat × ℚ)
  explored : List Nat
  toExplore : List Nat
  lastBack : Option Nat
deriving Repr, DecidableEq

/-- `self.cx_reliab[(a, b)]` when backend properties are present.  Without
them the code appends bare pairs instead of triples; the third component
is never read on that path, so a placeholder `0` keeps the two shapes in
one type. -/
def reliabOf (props : Option (Nat → Nat → ℚ)) (a b : Nat) : ℚ :=
  match props with
  | some r => r a b
  | none => 0

/-- The `while len(explored) < max_qubits:` loop of `chain` (lines
108-174).  Growing branch: pick `current + 1` if it is an unexplored
neighbour, else the smallest unexplored neighbour, extend the chain, and
— whenever `len(explored) < size - 1` still holds and the new endpoint
has an unexplored neighbour `n1` — dereference the undefined
`self._undirected_map` (line 134), i.e. raise `AttributeError`.
Back-step branch: record `current` as isolated after `full_map[-2]`,
drop it from the chain and step back, unless the guard on
`last_back_step` and `to_explore[0]` says to break. -/
def chainLoop (cd : ChainDev) (props : Option (Nat → Nat → ℚ)) (maxQ : Nat) :
    Nat → ChainSt → Except ChainFail ChainSt
  | 0, _ => .error .fuel
  | fuel + 1, st =>
    if st.explored.length < maxQ then
      match (cd.neighbors st.current).filter (fun n => !(st.explored.contains n)) with
      | [] =>
        if st.fullMap.length < 2 then .error .idxErr
        else
          match st.toExplore with
          | [] => .error .idxErr
          | t0 :: _ =>
            if st.lastBack ≠ some (st.fullMap.getD (st.fullMap.length - 2) 0) ∧
                ((t0 : Int) - (st.current : Int)).natAbs < st.toExplore.length then
              match (st.fullMap.erase st.current).getLast? with
              | none => .error .idxErr
              | some c =>
                chainLoop cd props maxQ fuel
                  { st with
                    isoData := st.isoData ++
                      [(st.fullMap.getD (st.fullMap.length - 2) 0, st.current,
                        reliabOf props (st.fullMap.getD (st.fullMap.length - 2) 0) st.current)],
                    isolated := st.isolated ++ [st.current],
                    fullMap := st.fullMap.erase st.current,
                    current := c,
                    lastBack := some c }
            else .ok st
      | n0 :: ns =>
        let next := if st.current + 1 ∈ n0 :: ns then st.current + 1 else ns.foldl min n0
        let st' := { st with
          explored := st.explored ++ [next],
          toExplore := st.toExplore.erase next,
          current := next,
          fullMap := st.fullMap ++ [next] }
        if st'.explored.length < maxQ - 1 ∧
            (cd.neighbors next).any (fun n => !(st'.explored.contains n)) then
          .error .attrErr
        else chainLoop cd props maxQ fuel st'
    else .ok st

/-- The isolated-qubit sweep of `chain` (lines 177-197): for each device
qubit neither explored nor isolated, attach it to the first isolated
qubit it neighbours, else to its first neighbour already on the chain. -/
def chainSweep (cd : ChainDev) (props : Option (Nat → Nat → ℚ)) (maxQ : Nat)
    (st : ChainSt) : ChainSt :=
  (List.range maxQ).foldl
    (fun st q =>
      if q ∈ st.explored ∨ q ∈ st.isolated then st
      else
        match st.isolated.find? (fun i => q ∈ cd.neighbors i) with
        | some i =>
          { st with
            isoData := st.isoData ++ [(i, q, reliabOf props i q)],
            isolated := st.isolated ++ [q],
            explored := st.explored ++ [q] }
        | none =>
          match (cd.neighbors q).find? (fun n => n ∈ st.fullMap) with
          | some n =>
            { st with
              isoData := st.isoData ++ [(n, q, reliabOf props n q)],
              isolated := st.isolated ++ [q],
              explored := st.explored ++ [q] }
          | none => st)
    st

/-- The `while remaining > 0:` insertion loop of `chain` (lines 205-216):
scan `isolated_with_data` for the first entry anchored on the chain,
splice its qubit in after (isolated anchor) or before (chain anchor) the
anchor, and repeat.  When no entry qualifies the Python loop spins
forever, which the fuel reports. -/
def insertLoop (isolated : List Nat) :
    Nat → List Nat → List (Nat × Nat × ℚ) → Nat → Except ChainFail (List Nat)
  | 0, _, _, _ => .error .fuel
  | fuel + 1, fullMap, isoData, remaining =>
    if remaining = 0 then .ok fullMap
    else
      match isoData.find? (fun e => decide (e.1 ∈ fullMap)) with
      | none => .error .fuel
      | some e =>
        insertLoop isolated fuel
          (if e.1 ∈ isolated then fullMap.insertIdx (fullMap.indexOf e.1 + 1) e.2.1
           else fullMap.insertIdx (fullMap.indexOf e.1) e.2.1)
          (isoData.erase e) (remaining - 1)

/-- `r(path[p], path[p+1])^3` accumulated over the edges of a shortest
path (lines 245-249, calibrated branch). -/
def pathCubes (r : Nat → Nat → ℚ) : List Nat → ℚ
  | p0 :: p1 :: rest => r p0 p1 ^ 3 * pathCubes r (p1 :: rest)
  | _ => 1

/-- The inner scoring loop of `best_subset` with backend properties
(lines 241-254): `tot_reliab` starts at 1 and, for each index `q`,
multiplies by the direct reliability when `sub_set[q+1]` neighbours the
*index* `q` in the coupling graph (the code's test, not the window
entry), else by the cubes along the shortest path between the window
entries. -/
def windowScoreRel (cd : ChainDev) (r : Nat → Nat → ℚ) (w : List Nat) : ℚ :=
  (List.range (w.length - 1)).foldl
    (fun tot q =>
      if w.getD (q + 1) 0 ∈ cd.neighbors q then tot * r (w.getD q 0) (w.getD (q + 1) 0)
      else tot * pathCubes r (cd.shortestPath (w.getD q 0) (w.getD (q + 1) 0)))
    1

/-- The inner scoring loop of `best_subset` without backend properties
(lines 239-252): a hop count, one per adjacent pair and one per
shortest-path edge otherwise; all values are naturals. -/
def windowScoreHop (cd : ChainDev) (w : List Nat) : Nat :=
  (List.range (w.length - 1)).foldl
    (fun tot q =>
      if w.getD (q + 1) 0 ∈ cd.neighbors q then tot + 1
      else tot + ((cd.shortestPath (w.getD q 0) (w.getD (q + 1) 0)).length - 1))
    0

/-- The offset loop of `best_subset` with backend properties: `m` windows
remain, the next has offset `o`; strict improvement over `bestR`
replaces the running best. -/
def bestSubsetGoRel (cd : ChainDev) (r : Nat → Nat → ℚ) (chain : List Nat) (k : Nat) :
    Nat → Nat → ℚ → List Nat → List Nat
  | 0, _, _, best => best
  | m + 1, o, bestR, best =>
    if bestR < windowScoreRel cd r ((chain.drop o).take k) then
      bestSubsetGoRel cd r chain k m (o + 1)
        (windowScoreRel cd r ((chain.drop o).take k)) ((chain.drop o).take k)
    else bestSubsetGoRel cd r chain k m (o + 1) bestR best

/-- The offset loop of `best_subset` without backend properties:
`best_reliab` starts at `float('inf')` (`none`) and strictly decreasing
hop counts replace the running best. -/
def bestSubsetGoHop (cd : ChainDev) (chain : List Nat) (k : Nat) :
    Nat → Nat → Option Nat → List Nat → List Nat
  | 0, _, _, best => best
  | m + 1, o, bestR, best =>
    if match bestR with
       | none => true
       | some b => decide (windowScoreHop cd ((chain.drop o).take k) < b) then
      bestSubsetGoHop cd chain k m (o + 1)
        (some (windowScoreHop cd ((chain.drop o).take k))) ((chain.drop o).take k)
    else bestSubsetGoHop cd chain k m (o + 1) bestR best

/-- `ChainLayout.best_subset` (lines 219-263): the initial best is
`chain[:num_qubits]` and the loop runs over `range(len(chain) -
num_qubits)` offsets — one short of covering the final window. -/
def bestSubset (cd : ChainDev) (props : Option (Nat → Nat → ℚ))
    (chain : List Nat) (k : Nat) : List Nat :=
  match props with
  | some r => bestSubsetGoRel cd r chain k (chain.length - k) 0 0 (chain.take k)
  | none => bestSubsetGoHop cd chain k (chain.length - k) 0 none (chain.take k)

/-- `ChainLayout.chain` (lines 76-217): capacity check, main loop from
qubit 0, isolated sweep, reliability-sorted insertion of isolated qubits
until `num_qubits` are on the chain, then `best_subset`. -/
def chainModel (cd : ChainDev) (props : Option (Nat → Nat → ℚ))
    (maxQ numQubits fuel : Nat) : Except ChainFail (List Nat) :=
  if maxQ < numQubits then .error .capacity
  else
    match chainLoop cd props maxQ fuel
        ⟨0, [0], [], [], [0], (List.range maxQ).erase 0, none⟩ with
    | .error e => .error e
    | .ok st =>
      let st' := chainSweep cd props maxQ st
      match insertLoop st'.isolated fuel st'.fullMap
          (if 0 < numQubits - st'.fullMap.length then
            match props with
            | some _ => st'.isoData.mergeSort (fun e1 e2 => decide (e2.2.2 ≤ e1.2.2))
            | none => st'.isoData
           else st'.isoData)
          (numQubits - st'.fullMap.length) with
      | .error e => .error e
      | .ok fm => .ok (bestSubset cd props fm numQubits)

/-- The window score exactly as claim C6 words it: for each *consecutive
pair* `(x, y)` of the window, the edge reliability when `y` neighbours
`x` (the window entry, not the loop index), else the cubes along a
shortest path. -/
def windowScoreClaim (cd : ChainDev) (r : Nat → Nat → ℚ) : List Nat → ℚ
  | x :: y :: rest =>
    (if y ∈ cd.neighbors x then r x y else pathCubes r (cd.shortestPath x y)) *
      windowScoreClaim cd r (y :: rest)
  | _ => 1

/-- The offset loop of `best_subset` as claim C6 words it, scanning the
remaining `m` windows with first-strictly-greater updates. -/
def bestSubsetClaimGo (cd : ChainDev) (r : Nat → Nat → ℚ) (chain : List Nat) (k : Nat) :
    Nat → Nat → ℚ → List Nat → List Nat
  | 0, _, _, best => best
  | m + 1, o, bestR, best =>
    if bestR < windowScoreClaim cd r ((chain.drop o).take k) then
      bestSubsetClaimGo cd r chain k m (o + 1)
        (windowScoreClaim cd r ((chain.drop o).take k)) ((chain.drop o).take k)
    else bestSubsetClaimGo cd r chain k m (o + 1) bestR best

/-- `best_subset` as claim C6 words it: every size-`k` window of the
chain — the final one included — is scored, and the first window
attaining the highest score is returned. -/
def bestSubsetClaim (cd : ChainDev) (r : Nat → Nat → ℚ)
    (chain : List Nat) (k : Nat) : List Nat :=
  bestSubsetClaimGo cd r chain k (chain.length - k) 1
    (windowScoreClaim cd r (chain.take k)) (chain.take k)

/-- The path 0-1-2-3-4, undirected, as `ChainLayout` sees it.  `chain`
fails before any shortest path is consulted, so the table is empty. -/
def cd5 : ChainDev where
  neighbors q :=
    match q with
    | 0 => [1] | 1 => [0, 2] | 2 => [1, 3] | 3 => [2, 4] | 4 => [3] | _ => []
  shortestPath _ _ := []

/-- The path 0-1-2 for the `best_subset` counterexample. -/
def cd3 : ChainDev where
  neighbors q := match q with | 0 => [1] | 1 => [0, 2] | 2 => [1] | _ => []
  shortestPath _ _ := []

/-- CX reliabilities on the path 0-1-2: the edge at qubit 0 is poor, the
edge 1-2 is good. -/
def r3 : Nat → Nat → ℚ := fun a b => if a = 0 ∨ b = 0 then 1 / 2 else 9 / 10

/-! ## TransformCxCascade (`src/passes/TransformCxCascade.py`)

The pass reads `dag.layers()` — a list of layers, each a list of op nodes
in order; gates of one layer act on disjoint wires.  `gate in self._skip`
compares `DAGNode` objects by identity, so a node is a `Gate` paired with
a unique id.  `self._wires_to_id` is the identity on a single register,
matching the router model.  The `Optimize1qGates` / `CXCancellation`
clean-up loops around the transformation are external passes that only
rewrite what is already in `new_dag`; they are omitted, so `transformRun`
is the pass's own rewriting. -/

/-- A DAG op node: object identity (`Nat`) plus its gate data. -/
abbrev NGate := Nat × Gate

/-- A Python `set`/`list` add that keeps first-insertion order. -/
def addSet (l : List Nat) (x : Nat) : List Nat := if x ∈ l then l else l ++ [x]

/-- The scan state shared by `check_cascade` and `check_inverse_cascade`:
`controls` is `controls` (resp. `targets`), `sk` the local `skip` list of
node ids, `before` the insertion-ordered dict of one-qubit gates to
re-emit first, `lastLayer` the (possibly negative) layer index
`last_layer`, `db` the `double_break` flag. -/
structure CascSt where
  controls : List Nat
  sk : List Nat
  used : List Nat
  offLimits : List Nat
  before : List (Nat × List NGate)
  after : List NGate
  lastLayer : Int
  db : Bool
deriving Repr

/-- `before[qarg].append(gate)`, creating the key on first use. -/
def beforeAdd (before : List (Nat × List NGate)) (qa : Nat) (ng : NGate) :
    List (Nat × List NGate) :=
  if before.any (fun p => p.1 == qa) then
    before.map (fun p => if p.1 == qa then (p.1, p.2 ++ [ng]) else p)
  else before ++ [(qa, [ng])]

/-- One layer of the scan loop of `check_cascade` (lines 200-325) and
`check_inverse_cascade` (lines 411-537), which differ only in the
anchored wire (`target` vs `control`, here `anchor`), in which CNOT
operand extends the cascade (`inv` swaps control and target), and in an
extra `last_layer` cut in the off-limits CNOT branch of the inverse scan
(lines 432-433).  A gate already in the global skip list only raises the
`double_break` flag (scanning of the layer continues); the branches that
`break` out of the gate loop stop the recursion at once with `db` set. -/
def cascLayer (gskip : List Nat) (inv : Bool) (anchor : Nat) (desc : Bool) (l : Nat) :
    List NGate → CascSt → CascSt
  | [], st => st
  | (nid, g) :: rest, st =>
    if nid ∈ gskip then
      cascLayer gskip inv anchor desc l rest
        (if g.qargs.contains anchor then { st with db := true } else st)
    else if nid ∈ st.sk then cascLayer gskip inv anchor desc l rest st
    else if g.name == "cx" then
      let gc := g.qargs.getD 0 0
      let gt := g.qargs.getD 1 0
      if (if inv then gt else gc) = anchor then { st with db := true }
      else if gc ∈ st.offLimits ∨ gt ∈ st.offLimits then
        cascLayer gskip inv anchor desc l rest
          { st with
            lastLayer := if inv then min st.lastLayer ((l : Int) - 1) else st.lastLayer,
            offLimits := addSet (addSet st.offLimits gc) gt,
            used := addSet (addSet st.used gc) gt }
      else if ((if inv then gc else gt) = anchor ∧ (if inv then gt else gc) ∉ st.controls ∧
                (if inv then gt else gc) ∉ st.used) ∧
              ((desc = true ∧ anchor < (if inv then gt else gc)) ∨
                (desc = false ∧ (if inv then gt else gc) < anchor)) then
        cascLayer gskip inv anchor desc l rest
          { st with
            controls := st.controls ++ [if inv then gt else gc],
            used := addSet st.used (if inv then gt else gc),
            sk := st.sk ++ [nid] }
      else if gt ≠ anchor ∧ gc ≠ anchor then
        if gt ∉ st.used ∧ gc ∉ st.used then
          cascLayer gskip inv anchor desc l rest
            { st with lastLayer := max st.lastLayer (l : Int) }
        else
          cascLayer gskip inv anchor desc l rest
            { st with
              offLimits := addSet (addSet st.offLimits gc) gt,
              lastLayer := min st.lastLayer ((l : Int) - 1),
              used := addSet (addSet st.used gc) gt }
      else { st with db := true }
    else
      if g.qargs.any (fun q => q ∈ st.offLimits) then
        cascLayer gskip inv anchor desc l rest st
      else if isSpecial g then
        if anchor ∈ g.qargs then
          { st with lastLayer := min st.lastLayer ((l : Int) - 1), db := true }
        else
          let u := g.qargs.filter (fun q => q ∈ st.used)
          let notU := g.qargs.filter (fun q => q ∉ st.used)
          if u.length = g.qargs.length then
            cascLayer gskip inv anchor desc l rest
              { st with
                offLimits := u.foldl addSet st.offLimits,
                lastLayer := min st.lastLayer ((l : Int) - 1) }
          else if u.length = 0 then
            cascLayer gskip inv anchor desc l rest
              { st with
                offLimits := u.foldl addSet st.offLimits,
                lastLayer := max st.lastLayer (l : Int) }
          else
            cascLayer gskip inv anchor desc l rest
              { st with
                offLimits := (notU ++ u).foldl addSet (u.foldl addSet st.offLimits),
                lastLayer := min st.lastLayer ((l : Int) - 1),
                used := (notU ++ u).foldl addSet st.used }
      else
        let qa := g.qargs.getD 0 0
        if qa = anchor then
          { st with after := st.after ++ [(nid, g)], sk := st.sk ++ [nid], db := true }
        else if qa ∉ st.used then
          cascLayer gskip inv anchor desc l rest
            { st with before := beforeAdd st.before qa (nid, g), sk := st.sk ++ [nid] }
        else
          cascLayer gskip inv anchor desc l rest
            { st with after := st.after ++ [(nid, g)], sk := st.sk ++ [nid] }

/-- The `while count < min(2*(num_qubits-1), len(layers)-layer_id)` loop:
scan successive layers starting at `l` until the bound or a
`double_break`. -/
def cascScan (gskip : List Nat) (layers : List (List NGate)) (inv : Bool)
    (anchor : Nat) (desc : Bool) : Nat → Nat → CascSt → CascSt
  | 0, _, st => st
  | cnt + 1, l, st =>
    let st' := cascLayer gskip inv anchor desc l (layers.getD l []) st
    if st'.db then st' else cascScan gskip layers inv anchor desc cnt (l + 1) st'

/-- Insert into a sorted list (kept structurally recursive so concrete
runs evaluate inside the kernel). -/
def insertSorted (le : Nat → Nat → Bool) (x : Nat) : List Nat → List Nat
  | [] => [x]
  | y :: ys => if le x y then x :: y :: ys else y :: insertSorted le x ys

/-- Insertion sort; the collected control/target wires are pairwise
distinct, so it computes Python's stable `sorted` on them. -/
def pySorted (le : Nat → Nat → Bool) : List Nat → List Nat
  | [] => []
  | x :: xs => insertSorted le x (pySorted le xs)

/-- `sorted(controls)` when the cascade descends, else
`sorted(controls, reverse=True)`. -/
def sortCs (desc : Bool) (cs : List Nat) : List Nat :=
  if desc then pySorted (fun x y => decide (x ≤ y)) cs
  else pySorted (fun x y => decide (y ≤ x)) cs

/-- The nearest-neighbour zig-zag of a committed cascade (lines 343-352):
`CX(cs[i], cs[i-1])` for `i = m-1, …, 1`, then `CX(cs[0], t)`, then
`CX(cs[i+1], cs[i])` for `i = 0, …, m-2`. -/
def emitZigzag (cs : List Nat) (t : Nat) : List Gate :=
  (List.range (cs.length - 1)).reverse.map
      (fun i => cxG (cs.getD (i + 1) 0) (cs.getD i 0)) ++
    [cxG (cs.getD 0 0) t] ++
    (List.range (cs.length - 1)).map (fun i => cxG (cs.getD (i + 1) 0) (cs.getD i 0))

/-- The re-emitted `before` gates, in key-insertion then append order. -/
def beforeGates (st : CascSt) : List Gate :=
  st.before.foldl (fun acc p => acc ++ p.2.map Prod.snd) []

/-- `U2(0, pi)` — the Hadamard (up to phase) wrapper of the inverse
cascade rewrite. -/
def u2G (w : Nat) : Gate :=
  { name := "u2", qargs := [w], cargs := [], params := [.rat 0, .pi], cond := none }

/-- The outcome of a cascade check: no cascade (`None`), a committed one
(the returned skip list and the updated `_extra_layers`), or the
`KeyError` raised by `self._extra_layers[last_layer]` when `last_layer`
has been cut below 0 (or past the last layer). -/
inductive CascRes where
  | notFound
  | found (sk : List Nat) (extras : List (List Gate))
  | keyErr
deriving Repr

/-- `check_cascade` (lines 154-361). -/
def checkCascade (gskip : List Nat) (layers : List (List NGate)) (numQubits layerId : Nat)
    (extras : List (List Gate)) (nid : Nat) (g : Gate) : CascRes :=
  let target := g.qargs.getD 1 0
  let control := g.qargs.getD 0 0
  let desc := decide (target < control)
  let st := cascScan gskip layers false target desc
    (min (2 * (numQubits - 1)) (layers.length - layerId)) layerId
    { controls := [control], sk := [nid], used := [target, control], offLimits := [],
      before := [], after := [], lastLayer := (layerId : Int), db := false }
  if 1 < st.controls.length then
    if st.lastLayer < 0 ∨ (extras.length : Int) ≤ st.lastLayer then .keyErr
    else
      .found st.sk
        (extras.set st.lastLayer.toNat
          (extras.getD st.lastLayer.toNat [] ++
            (beforeGates st ++ emitZigzag (sortCs desc st.controls) target ++
              st.after.map Prod.snd)))
  else .notFound

/-- `check_inverse_cascade` (lines 363-579): the same scan anchored on the
control, committing the zig-zag over the sorted targets wrapped in
`U2(0, pi)` gates on the control and every target. -/
def checkInvCascade (gskip : List Nat) (layers : List (List NGate)) (numQubits layerId : Nat)
    (extras : List (List Gate)) (nid : Nat) (g : Gate) : CascRes :=
  let target := g.qargs.getD 1 0
  let control := g.qargs.getD 0 0
  let desc := decide (control < target)
  let st := cascScan gskip layers true control desc
    (min (2 * (numQubits - 1)) (layers.length - layerId)) layerId
    { controls := [target], sk := [nid], used := [target, control], offLimits := [],
      before := [], after := [], lastLayer := (layerId : Int), db := false }
  if 1 < st.controls.length then
    if st.lastLayer < 0 ∨ (extras.length : Int) ≤ st.lastLayer then .keyErr
    else
      .found st.sk
        (extras.set st.lastLayer.toNat
          (extras.getD st.lastLayer.toNat [] ++
            (beforeGates st ++
              ([u2G control] ++ (sortCs desc st.controls).map u2G ++
                emitZigzag (sortCs desc st.controls) control ++
                [u2G control] ++ (sortCs desc st.controls).map u2G) ++
              st.after.map Prod.snd)))
  else .notFound

/-- The gate loop of `run` over one layer (lines 108-138): skip gates
already consumed, try a direct then an inverse cascade on each CNOT,
emit everything else. -/
def runLayerGates (numQubits : Nat) (layers : List (List NGate)) (i : Nat) :
    List NGate → List Nat × List (List Gate) × List Gate →
      Option (List Nat × List (List Gate) × List Gate)
  | [], s => some s
  | (nid, g) :: rest, (gskip, extras, out) =>
    if nid ∈ gskip then runLayerGates numQubits layers i rest (gskip, extras, out)
    else if g.name == "cx" then
      match checkCascade gskip layers numQubits i extras nid g with
      | .keyErr => none
      | .found sk extras' => runLayerGates numQubits layers i rest (gskip ++ sk, extras', out)
      | .notFound =>
        match checkInvCascade gskip layers numQubits i extras nid g with
        | .keyErr => none
        | .found sk extras' => runLayerGates numQubits layers i rest (gskip ++ sk, extras', out)
        | .notFound =>
          runLayerGates numQubits layers i rest (gskip ++ [nid], extras, out ++ [g])
    else runLayerGates numQubits layers i rest (gskip ++ [nid], extras, out ++ [g])

/-- The layer loop of `run` (lines 101-138): at layer `i > 0` first emit
the nearest-neighbour sequences recorded in `_extra_layers[i-1]`. -/
def runLayers (numQubits : Nat) (layers : List (List NGate)) :
    Nat → List (List NGate) → List Nat × List (List Gate) × List Gate →
      Option (List Nat × List (List Gate) × List Gate)
  | _, [], s => some s
  | i, layer :: restLayers, (gskip, extras, out) =>
    match runLayerGates numQubits layers i layer
        (gskip, extras, if i ≠ 0 then out ++ extras.getD (i - 1) [] else out) with
    | none => none
    | some s => runLayers numQubits layers (i + 1) restLayers s

/-- `TransformCxCascade.run` without the surrounding external
`Optimize1qGates`/`CXCancellation` clean-up loops: the sequence of gates
the pass itself writes into the new dag.  `none` is the `KeyError`
escape of a cascade committed to a negative layer index. -/
def transformRun (numQubits : Nat) (layers : List (List NGate)) : Option (List Gate) :=
  match runLayers numQubits layers 0 layers ([], List.replicate layers.length [], []) with
  | none => none
  | some (_, _, out) => some out

/-- The zig-zag exactly as the spec words it for sorted controls
`[a1, …, am]` and target `t`:
`CX(am,am-1), …, CX(a2,a1), CX(a1,t), CX(a2,a1), …, CX(am,am-1)`. -/
def emitZigzagSpec (cs : List Nat) (t : Nat) : List Gate :=
  ((cs.zip (cs.drop 1)).map (fun p => cxG p.2 p.1)).reverse ++
    [cxG (cs.headD 0) t] ++ (cs.zip (cs.drop 1)).map (fun p => cxG p.2 p.1)

/-- CX on classical basis states: flip `t` when `c` is set.  CX-only
circuits have permutation-matrix unitaries, so two such circuits equal
up to a global phase agree on every basis state; disagreement of
`evalCx` refutes unitary equivalence up to phase. -/
def applyCx (st : List Bool) (c t : Nat) : List Bool :=
  st.set t (xor (st.getD t false) (st.getD c false))

/-- Evaluate a CX-only gate list on a basis state (`none` on any other
gate). -/
def evalCx : List Gate → List Bool → Option (List Bool)
  | [], st => some st
  | g :: gs, st =>
    match g.name == "cx", g.qargs with
    | true, [c, t] => evalCx gs (applyCx st c t)
    | _, _ => none

/-- The S3 cascade instance: `CX(1,0), CX(2,0), CX(3,0)` on wires 0..3.
The three CNOTs share wire 0, so `dag.layers()` puts them in three
successive layers. -/
def layers3 : List (List NGate) := [[(0, cxG 1 0)], [(1, cxG 2 0)], [(2, cxG 3 0)]]

/-- The C2 failing input: layers `[[CX(1,0), CX(4,3)], [CX(2,0), CX(3,4)]]`
on wires 0..4 (each layer acts on disjoint wires, and the second layer's
gates depend on the first, so this is a genuine `dag.layers()` output). -/
def layersC2 : List (List NGate) :=
  [[(0, cxG 1 0), (1, cxG 4 3)], [(2, cxG 2 0), (3, cxG 3 4)]]

/-! ## `NoiseAdaptiveSwap.__init__` (C7)

The keyword arguments of the constructor; a `none` field is an omitted
kwarg.  `readout` only changes how the `swap_reliabs` table of the
`Device` is computed, which the router model takes as an input, so a
successful construction is summarised by a `Config`. -/

structure Kwargs where
  searchDepth : Option Nat := none
  nSwaps : Option Nat := none
  nextGates : Option Nat := none
  alpha : Option ℚ := none
  readout : Option Bool := none
  front : Option Bool := none

/-- How `__init__` can raise while reading its options: the unguarded
`kwargs['alpha']` lookup (line 44, a `KeyError` when `alpha` is
omitted), or the `TranspilerError` for an alpha outside `[0, 1]`. -/
inductive InitErr where
  | keyErrAlpha
  | invalidAlpha
deriving DecidableEq, Repr

/-- `NoiseAdaptiveSwap.__init__`, option-reading part (lines 31-55):
defaults 4 / 4 / 5 / False / False, and the alpha validation
`kwargs['alpha'] > 1 or kwargs['alpha'] < 0`. -/
def initModel (kw : Kwargs) : Except InitErr Config :=
  let sd := kw.searchDepth.getD 4
  let ns := kw.nSwaps.getD 4
  let ng := kw.nextGates.getD 5
  match kw.alpha with
  | none => .error .keyErrAlpha
  | some a =>
    if 1 < a ∨ a < 0 then .error .invalidAlpha
    else .ok { searchDepth := sd, nSwaps := ns, nextGates := ng, alpha := a,
               front := kw.front.getD false }

end NoiseCompiler

namespace NoiseCompiler

/-- Adjacency of a committed gate, exactly as the router tests it: a
non-special two-operand gate sits on physical qubits at hop distance 1. -/
def adjOut (dev : Device) (g : Gate) : Prop :=
  isSpecial g = false → g.qargs.length = 2 →
    dev.distance (g.qargs.getD 0 0) (g.qargs.getD 1 0) = 1

theorem ident_executeGate (layout : Layout) (g : Gate) :
    ident (executeGate layout g) = ident g := rfl

/-- Everything the later invariants need about a single-gate-mode
classification: the executed and deferred gates partition the surviving
input (as multisets of identities), deferred gates come from the input and
survive, the front layer is a sublist of the deferred list, and executed
gates are remapped input gates that pass the adjacency test. -/
theorem updateToExecGo_spec (dev : Device) (layout : Layout) :
    ∀ gates busy te tm ex,
      updateToExecGo dev layout gates busy = some (te, tm, ex) →
      ((ex.map ident ++ te.map ident).Perm ((gates.filter keepG).map ident)) ∧
      (∀ g ∈ te, g ∈ gates) ∧ (∀ g ∈ tm, g ∈ gates) ∧
      (∀ g ∈ te, keepG g = true) ∧
      tm.Sublist te ∧
      (∀ g ∈ ex, adjOut dev g) ∧
      (∀ g ∈ ex, ∃ g0 ∈ gates, g = executeGate layout g0) := by
  intro gates
  induction gates with
  | nil =>
    intro busy te tm ex h
    simp only [updateToExecGo] at h
    obtain ⟨rfl, rfl, rfl⟩ : te = [] ∧ tm = [] ∧ ex = [] := by
      simpa using h.symm
    simp
  | cons g rest ih =>
    intro busy te tm ex h
    simp only [updateToExecGo] at h
    split_ifs at h with hsp hemp hbusy hbusy
    · -- special gate with empty operand list: dropped
      obtain ⟨hperm, hte, htm, hkeep, hsub, hadj, hor⟩ := ih busy te tm ex h
      have hk : keepG g = false := by simp [keepG, hsp, hemp]
      refine ⟨by simpa [List.filter_cons, hk] using hperm, ?_, ?_, hkeep, hsub, hadj, ?_⟩
      · exact fun x hx => List.mem_cons_of_mem _ (hte x hx)
      · exact fun x hx => List.mem_cons_of_mem _ (htm x hx)
      · exact fun x hx => (hor x hx).imp fun g0 hg0 => ⟨List.mem_cons_of_mem _ hg0.1, hg0.2⟩
    · -- special gate on a busy wire: deferred
      cases heq : updateToExecGo dev layout rest (busy ++ g.qargs) with
      | none => rw [heq] at h; exact absurd h (by simp)
      | some r =>
        obtain ⟨te1, tm1, ex1⟩ := r
        rw [heq] at h
        obtain ⟨rfl, rfl, rfl⟩ : te = g :: te1 ∧ tm = tm1 ∧ ex = ex1 := by
          simpa using h.symm
        obtain ⟨hperm, hte, htm, hkeep, hsub, hadj, hor⟩ := ih _ _ _ _ heq
        have hk : keepG g = true := by simp [keepG, hemp]
        refine ⟨?_, ?_, ?_, ?_, hsub.cons _, hadj, ?_⟩
        · simp only [List.map_cons]
          refine List.Perm.trans List.perm_middle ?_
          refine List.Perm.trans (hperm.cons (ident g)) ?_
          simp [List.filter_cons, hk]
        · intro x hx
          rcases List.mem_cons.mp hx with rfl | hx
          · exact List.mem_cons_self _ _
          · exact List.mem_cons_of_mem _ (hte x hx)
        · exact fun x hx => List.mem_cons_of_mem _ (htm x hx)
        · intro x hx
          rcases List.mem_cons.mp hx with rfl | hx
          · exact hk
          · exact hkeep x hx
        · exact fun x hx => (hor x hx).imp fun g0 hg0 => ⟨List.mem_cons_of_mem _ hg0.1, hg0.2⟩
    · -- special gate on free wires: executed
      cases heq : updateToExecGo dev layout rest busy with
      | none => rw [heq] at h; exact absurd h (by simp)
      | some r =>
        obtain ⟨te1, tm1, ex1⟩ := r
        rw [heq] at h
        obtain ⟨rfl, rfl, rfl⟩ : te = te1 ∧ tm = tm1 ∧ ex = executeGate layout g :: ex1 := by
          simpa using h.symm
        obtain ⟨hperm, hte, htm, hkeep, hsub, hadj, hor⟩ := ih _ _ _ _ heq
        have hk : keepG g = true := by simp [keepG, hemp]
        refine ⟨?_, ?_, ?_, hkeep, hsub, ?_, ?_⟩
        · simpa [List.filter_cons, hk, ident_executeGate] using hperm.cons (ident g)
        · exact fun x hx => List.mem_cons_of_mem _ (hte x hx)
        · exact fun x hx => List.mem_cons_of_mem _ (htm x hx)
        · intro x hx
          rcases List.mem_cons.mp hx with rfl | hx
          · intro hns _
            exact absurd hsp (by
              have : isSpecial (executeGate layout g) = isSpecial g := rfl
              rw [this] at hns
              simp [hns])
          · exact hadj x hx
        · intro x hx
          rcases List.mem_cons.mp hx with rfl | hx
          · exact ⟨g, List.mem_cons_self _ _, rfl⟩
          · exact (hor x hx).imp fun g0 hg0 => ⟨List.mem_cons_of_mem _ hg0.1, hg0.2⟩
    · -- non-special gate on a busy wire: deferred
      cases heq : updateToExecGo dev layout rest (busy ++ g.qargs) with
      | none => rw [heq] at h; exact absurd h (by simp)
      | some r =>
        obtain ⟨te1, tm1, ex1⟩ := r
        rw [heq] at h
        obtain ⟨rfl, rfl, rfl⟩ : te = g :: te1 ∧ tm = tm1 ∧ ex = ex1 := by
          simpa using h.symm
        obtain ⟨hperm, hte, htm, hkeep, hsub, hadj, hor⟩ := ih _ _ _ _ heq
        have hk : keepG g = true := by simp [keepG, hsp]
        refine ⟨?_, ?_, ?_, ?_, hsub.cons _, hadj, ?_⟩
        · simp only [List.map_cons]
          refine List.Perm.trans List.perm_middle ?_
          refine List.Perm.trans (hperm.cons (ident g)) ?_
          simp [List.filter_cons, hk]
        · intro x hx
          rcases List.mem_cons.mp hx with rfl | hx
          · exact List.mem_cons_self _ _
          · exact List.mem_cons_of_mem _ (hte x hx)
        · exact fun x hx => List.mem_cons_of_mem _ (htm x hx)
        · intro x hx
          rcases List.mem_cons.mp hx with rfl | hx
          · exact hk
          · exact hkeep x hx
        · exact fun x hx => (hor x hx).imp fun g0 hg0 => ⟨List.mem_cons_of_mem _ hg0.1, hg0.2⟩
    · -- non-special gate on free wires: match on the operand list
      have hk : keepG g = true := by simp [keepG, hsp]
      rcases hq : g.qargs with _ | ⟨q1, _ | ⟨q2, _ | _⟩⟩ <;> rw [hq] at h <;> dsimp only at h
      · exact absurd h (by simp)
      · -- one-qubit gate: executed
        cases heq : updateToExecGo dev layout rest busy with
        | none => rw [heq] at h; exact absurd h (by simp)
        | some r =>
          obtain ⟨te1, tm1, ex1⟩ := r
          rw [heq] at h
          obtain ⟨rfl, rfl, rfl⟩ : te = te1 ∧ tm = tm1 ∧ ex = executeGate layout g :: ex1 := by
            simpa using h.symm
          obtain ⟨hperm, hte, htm, hkeep, hsub, hadj, hor⟩ := ih _ _ _ _ heq
          refine ⟨?_, ?_, ?_, hkeep, hsub, ?_, ?_⟩
          · simpa [List.filter_cons, hk, ident_executeGate] using hperm.cons (ident g)
          · exact fun x hx => List.mem_cons_of_mem _ (hte x hx)
          · exact fun x hx => List.mem_cons_of_mem _ (htm x hx)
          · intro x hx
            rcases List.mem_cons.mp hx with rfl | hx
            · intro _ hlen
              exact absurd hlen (by simp [executeGate, hq])
            · exact hadj x hx
          · intro x hx
            rcases List.mem_cons.mp hx with rfl | hx
            · exact ⟨g, List.mem_cons_self _ _, rfl⟩
            · exact (hor x hx).imp fun g0 hg0 => ⟨List.mem_cons_of_mem _ hg0.1, hg0.2⟩
      · -- two-qubit gate: adjacency test
        by_cases hd : dev.distance (physOf layout q1) (physOf layout q2) = 1
        · rw [if_pos hd] at h
          cases heq : updateToExecGo dev layout rest busy with
          | none => rw [heq] at h; exact absurd h (by simp)
          | some r =>
            obtain ⟨te1, tm1, ex1⟩ := r
            rw [heq] at h
            obtain ⟨rfl, rfl, rfl⟩ : te = te1 ∧ tm = tm1 ∧ ex = executeGate layout g :: ex1 := by
              simpa using h.symm
            obtain ⟨hperm, hte, htm, hkeep, hsub, hadj, hor⟩ := ih _ _ _ _ heq
            refine ⟨?_, ?_, ?_, hkeep, hsub, ?_, ?_⟩
            · simpa [List.filter_cons, hk, ident_executeGate] using hperm.cons (ident g)
            · exact fun x hx => List.mem_cons_of_mem _ (hte x hx)
            · exact fun x hx => List.mem_cons_of_mem _ (htm x hx)
            · intro x hx
              rcases List.mem_cons.mp hx with rfl | hx
              · intro _ _
                simpa [executeGate, hq] using hd
              · exact hadj x hx
            · intro x hx
              rcases List.mem_cons.mp hx with rfl | hx
              · exact ⟨g, List.mem_cons_self _ _, rfl⟩
              · exact (hor x hx).imp fun g0 hg0 => ⟨List.mem_cons_of_mem _ hg0.1, hg0.2⟩
        · rw [if_neg hd] at h
          cases heq : updateToExecGo dev layout rest (busy ++ [q1, q2]) with
          | none => rw [heq] at h; exact absurd h (by simp)
          | some r =>
            obtain ⟨te1, tm1, ex1⟩ := r
            rw [heq] at h
            obtain ⟨rfl, rfl, rfl⟩ : te = g :: te1 ∧ tm = g :: tm1 ∧ ex = ex1 := by
              simpa using h.symm
            obtain ⟨hperm, hte, htm, hkeep, hsub, hadj, hor⟩ := ih _ _ _ _ heq
            refine ⟨?_, ?_, ?_, ?_, hsub.cons₂ _, hadj, ?_⟩
            · simp only [List.map_cons]
              refine List.Perm.trans List.perm_middle ?_
              refine List.Perm.trans (hperm.cons (ident g)) ?_
              simp [List.filter_cons, hk]
            · intro x hx
              rcases List.mem_cons.mp hx with rfl | hx
              · exact List.mem_cons_self _ _
              · exact List.mem_cons_of_mem _ (hte x hx)
            · intro x hx
              rcases List.mem_cons.mp hx with rfl | hx
              · exact List.mem_cons_self _ _
              · exact List.mem_cons_of_mem _ (htm x hx)
            · intro x hx
              rcases List.mem_cons.mp hx with rfl | hx
              · exact hk
              · exact hkeep x hx
            · exact fun x hx => (hor x hx).imp fun g0 hg0 => ⟨List.mem_cons_of_mem _ hg0.1, hg0.2⟩
      · exact absurd h (by simp)

/-- The front-layer-mode analogue of `updateToExecGo_spec`: here the front
layer `tm` is disjoint from `te` (each input gate lands in exactly one of
the three lists), which the sub-permutation conjunct captures. -/
theorem updateToMapGo_spec (dev : Device) (layout : Layout) :
    ∀ gates busy te tm ex,
      updateToMapGo dev layout gates busy = some (te, tm, ex) →
      ((ex.map ident ++ te.map ident ++ tm.map ident).Perm
        ((gates.filter keepG).map ident)) ∧
      (∀ g ∈ te, g ∈ gates ∧ keepG g = true) ∧
      (∀ g ∈ tm, g ∈ gates ∧ keepG g = true) ∧
      (te ++ tm).Subperm gates ∧
      (∀ g ∈ ex, adjOut dev g) ∧
      (∀ g ∈ ex, ∃ g0 ∈ gates, g = executeGate layout g0) := by
  intro gates
  induction gates with
  | nil =>
    intro busy te tm ex h
    simp only [updateToMapGo] at h
    obtain ⟨rfl, rfl, rfl⟩ : te = [] ∧ tm = [] ∧ ex = [] := by
      simpa using h.symm
    simp
  | cons g rest ih =>
    intro busy te tm ex h
    simp only [updateToMapGo] at h
    split_ifs at h with hsp hemp hbusy hbusy
    · -- special gate with empty operand list: dropped
      obtain ⟨hperm, hte, htm, hsub, hadj, hor⟩ := ih busy te tm ex h
      have hk : keepG g = false := by simp [keepG, hsp, hemp]
      refine ⟨by simpa [List.filter_cons, hk] using hperm, ?_, ?_,
        hsub.trans (List.sublist_cons_self g rest).subperm, hadj, ?_⟩
      · exact fun x hx => ⟨List.mem_cons_of_mem _ (hte x hx).1, (hte x hx).2⟩
      · exact fun x hx => ⟨List.mem_cons_of_mem _ (htm x hx).1, (htm x hx).2⟩
      · exact fun x hx => (hor x hx).imp fun g0 hg0 => ⟨List.mem_cons_of_mem _ hg0.1, hg0.2⟩
    · -- special gate on a busy wire: deferred
      cases heq : updateToMapGo dev layout rest (busy ++ g.qargs) with
      | none => rw [heq] at h; exact absurd h (by simp)
      | some r =>
        obtain ⟨te1, tm1, ex1⟩ := r
        rw [heq] at h
        obtain ⟨rfl, rfl, rfl⟩ : te = g :: te1 ∧ tm = tm1 ∧ ex = ex1 := by
          simpa using h.symm
        obtain ⟨hperm, hte, htm, hsub, hadj, hor⟩ := ih _ _ _ _ heq
        have hk : keepG g = true := by simp [keepG, hemp]
        refine ⟨?_, ?_, ?_, ?_, hadj, ?_⟩
        · simp only [List.map_cons]
          refine List.Perm.trans ?_ ((hperm.cons (ident g)).trans ?_)
          · refine List.Perm.trans (List.Perm.append_right _ List.perm_middle) ?_
            simp [List.append_assoc]
          · simp [List.filter_cons, hk]
        · intro x hx
          rcases List.mem_cons.mp hx with rfl | hx
          · exact ⟨List.mem_cons_self _ _, hk⟩
          · exact ⟨List.mem_cons_of_mem _ (hte x hx).1, (hte x hx).2⟩
        · exact fun x hx => ⟨List.mem_cons_of_mem _ (htm x hx).1, (htm x hx).2⟩
        · exact (List.subperm_cons g).mpr hsub
        · exact fun x hx => (hor x hx).imp fun g0 hg0 => ⟨List.mem_cons_of_mem _ hg0.1, hg0.2⟩
    · -- special gate on free wires: executed
      cases heq : updateToMapGo dev layout rest busy with
      | none => rw [heq] at h; exact absurd h (by simp)
      | some r =>
        obtain ⟨te1, tm1, ex1⟩ := r
        rw [heq] at h
        obtain ⟨rfl, rfl, rfl⟩ : te = te1 ∧ tm = tm1 ∧ ex = executeGate layout g :: ex1 := by
          simpa using h.symm
        obtain ⟨hperm, hte, htm, hsub, hadj, hor⟩ := ih _ _ _ _ heq
        have hk : keepG g = true := by simp [keepG, hemp]
        refine ⟨?_, ?_, ?_, hsub.trans (List.sublist_cons_self g rest).subperm, ?_, ?_⟩
        · simpa [List.filter_cons, hk, ident_executeGate] using hperm.cons (ident g)
        · exact fun x hx => ⟨List.mem_cons_of_mem _ (hte x hx).1, (hte x hx).2⟩
        · exact fun x hx => ⟨List.mem_cons_of_mem _ (htm x hx).1, (htm x hx).2⟩
        · intro x hx
          rcases List.mem_cons.mp hx with rfl | hx
          · intro hns _
            exact absurd hsp (by
              have : isSpecial (executeGate layout g) = isSpecial g := rfl
              rw [this] at hns
              simp [hns])
          · exact hadj x hx
        · intro x hx
          rcases List.mem_cons.mp hx with rfl | hx
          · exact ⟨g, List.mem_cons_self _ _, rfl⟩
          · exact (hor x hx).imp fun g0 hg0 => ⟨List.mem_cons_of_mem _ hg0.1, hg0.2⟩
    · -- non-special gate on a busy wire: deferred
      cases heq : updateToMapGo dev layout rest (busy ++ g.qargs) with
      | none => rw [heq] at h; exact absurd h (by simp)
      | some r =>
        obtain ⟨te1, tm1, ex1⟩ := r
        rw [heq] at h
        obtain ⟨rfl, rfl, rfl⟩ : te = g :: te1 ∧ tm = tm1 ∧ ex = ex1 := by
          simpa using h.symm
        obtain ⟨hperm, hte, htm, hsub, hadj, hor⟩ := ih _ _ _ _ heq
        have hk : keepG g = true := by simp [keepG, hsp]
        refine ⟨?_, ?_, ?_, (List.subperm_cons g).mpr hsub, hadj, ?_⟩
        · simp only [List.map_cons]
          refine List.Perm.trans ?_ ((hperm.cons (ident g)).trans ?_)
          · refine List.Perm.trans (List.Perm.append_right _ List.perm_middle) ?_
            simp [List.append_assoc]
          · simp [List.filter_cons, hk]
        · intro x hx
          rcases List.mem_cons.mp hx with rfl | hx
          · exact ⟨List.mem_cons_self _ _, hk⟩
          · exact ⟨List.mem_cons_of_mem _ (hte x hx).1, (hte x hx).2⟩
        · exact fun x hx => ⟨List.mem_cons_of_mem _ (htm x hx).1, (htm x hx).2⟩
        · exact fun x hx => (hor x hx).imp fun g0 hg0 => ⟨List.mem_cons_of_mem _ hg0.1, hg0.2⟩
    · -- non-special gate on free wires: match on the operand list
      have hk : keepG g = true := by simp [keepG, hsp]
      rcases hq : g.qargs with _ | ⟨q1, _ | ⟨q2, _ | _⟩⟩ <;> rw [hq] at h <;> dsimp only at h
      · exact absurd h (by simp)
      · -- one-qubit gate: executed
        cases heq : updateToMapGo dev layout rest busy with
        | none => rw [heq] at h; exact absurd h (by simp)
        | some r =>
          obtain ⟨te1, tm1, ex1⟩ := r
          rw [heq] at h
          obtain ⟨rfl, rfl, rfl⟩ : te = te1 ∧ tm = tm1 ∧ ex = executeGate layout g :: ex1 := by
            simpa using h.symm
          obtain ⟨hperm, hte, htm, hsub, hadj, hor⟩ := ih _ _ _ _ heq
          refine ⟨?_, ?_, ?_, hsub.trans (List.sublist_cons_self g rest).subperm, ?_, ?_⟩
          · simpa [List.filter_cons, hk, ident_executeGate] using hperm.cons (ident g)
          · exact fun x hx => ⟨List.mem_cons_of_mem _ (hte x hx).1, (hte x hx).2⟩
          · exact fun x hx => ⟨List.mem_cons_of_mem _ (htm x hx).1, (htm x hx).2⟩
          · intro x hx
            rcases List.mem_cons.mp hx with rfl | hx
            · intro _ hlen
              exact absurd hlen (by simp [executeGate, hq])
            · exact hadj x hx
          · intro x hx
            rcases List.mem_cons.mp hx with rfl | hx
            · exact ⟨g, List.mem_cons_self _ _, rfl⟩
            · exact (hor x hx).imp fun g0 hg0 => ⟨List.mem_cons_of_mem _ hg0.1, hg0.2⟩
      · -- two-qubit gate: adjacency test
        by_cases hd : dev.distance (physOf layout q1) (physOf layout q2) = 1
        · rw [if_pos hd] at h
          cases heq : updateToMapGo dev layout rest busy with
          | none => rw [heq] at h; exact absurd h (by simp)
          | some r =>
            obtain ⟨te1, tm1, ex1⟩ := r
            rw [heq] at h
            obtain ⟨rfl, rfl, rfl⟩ : te = te1 ∧ tm = tm1 ∧ ex = executeGate layout g :: ex1 := by
              simpa using h.symm
            obtain ⟨hperm, hte, htm, hsub, hadj, hor⟩ := ih _ _ _ _ heq
            refine ⟨?_, ?_, ?_, hsub.trans (List.sublist_cons_self g rest).subperm, ?_, ?_⟩
            · simpa [List.filter_cons, hk, ident_executeGate] using hperm.cons (ident g)
            · exact fun x hx => ⟨List.mem_cons_of_mem _ (hte x hx).1, (hte x hx).2⟩
            · exact fun x hx => ⟨List.mem_cons_of_mem _ (htm x hx).1, (htm x hx).2⟩
            · intro x hx
              rcases List.mem_cons.mp hx with rfl | hx
              · intro _ _
                simpa [executeGate, hq] using hd
              · exact hadj x hx
            · intro x hx
              rcases List.mem_cons.mp hx with rfl | hx
              · exact ⟨g, List.mem_cons_self _ _, rfl⟩
              · exact (hor x hx).imp fun g0 hg0 => ⟨List.mem_cons_of_mem _ hg0.1, hg0.2⟩
        · rw [if_neg hd] at h
          cases heq : updateToMapGo dev layout rest (busy ++ [q1, q2]) with
          | none => rw [heq] at h; exact absurd h (by simp)
          | some r =>
            obtain ⟨te1, tm1, ex1⟩ := r
            rw [heq] at h
            obtain ⟨rfl, rfl, rfl⟩ : te = te1 ∧ tm = g :: tm1 ∧ ex = ex1 := by
              simpa using h.symm
            obtain ⟨hperm, hte, htm, hsub, hadj, hor⟩ := ih _ _ _ _ heq
            refine ⟨?_, ?_, ?_, ?_, hadj, ?_⟩
            · simp only [List.map_cons]
              refine List.Perm.trans ?_ ((hperm.cons (ident g)).trans ?_)
              · refine List.Perm.trans List.perm_middle ?_
                simp [List.append_assoc]
              · simp [List.filter_cons, hk]
            · exact fun x hx => ⟨List.mem_cons_of_mem _ (hte x hx).1, (hte x hx).2⟩
            · intro x hx
              rcases List.mem_cons.mp hx with rfl | hx
              · exact ⟨List.mem_cons_self _ _, hk⟩
              · exact ⟨List.mem_cons_of_mem _ (htm x hx).1, (htm x hx).2⟩
            · exact (List.Perm.subperm_right List.perm_middle).mpr
                ((List.subperm_cons g).mpr hsub)
            · exact fun x hx => (hor x hx).imp fun g0 hg0 => ⟨List.mem_cons_of_mem _ hg0.1, hg0.2⟩
      · exact absurd h (by simp)

/-- With an empty busy set (the only way the router's loops call it), a
front-layer classification with an empty front layer also has an empty
deferred list: nothing is ever busy, so nothing defers. -/
theorem updateToMapGo_empty (dev : Device) (layout : Layout) :
    ∀ gates te ex,
      updateToMapGo dev layout gates [] = some (te, [], ex) → te = [] := by
  intro gates
  induction gates with
  | nil =>
    intro te ex h
    simp only [updateToMapGo] at h
    exact (by simpa using h.symm : te = [] ∧ ([] : List Gate) = [] ∧ ex = []).1
  | cons g rest ih =>
    intro te ex h
    simp only [updateToMapGo] at h
    split_ifs at h with hsp hemp hbusy hbusy
    · exact ih te ex h
    · exact absurd hbusy (by simp)
    · cases heq : updateToMapGo dev layout rest [] with
      | none => rw [heq] at h; exact absurd h (by simp)
      | some r =>
        obtain ⟨te1, tm1, ex1⟩ := r
        rw [heq] at h
        obtain ⟨rfl, rfl, rfl⟩ : te = te1 ∧ tm1 = [] ∧ ex = executeGate layout g :: ex1 := by
          simpa [eq_comm] using h.symm
        exact ih _ _ heq
    · exact absurd hbusy (by simp)
    · rcases hq : g.qargs with _ | ⟨q1, _ | ⟨q2, _ | _⟩⟩ <;> rw [hq] at h <;> dsimp only at h
      · exact absurd h (by simp)
      · cases heq : updateToMapGo dev layout rest [] with
        | none => rw [heq] at h; exact absurd h (by simp)
        | some r =>
          obtain ⟨te1, tm1, ex1⟩ := r
          rw [heq] at h
          obtain ⟨rfl, rfl, rfl⟩ : te = te1 ∧ tm1 = [] ∧ ex = executeGate layout g :: ex1 := by
            simpa [eq_comm] using h.symm
          exact ih _ _ heq
      · by_cases hd : dev.distance (physOf layout q1) (physOf layout q2) = 1
        · rw [if_pos hd] at h
          cases heq : updateToMapGo dev layout rest [] with
          | none => rw [heq] at h; exact absurd h (by simp)
          | some r =>
            obtain ⟨te1, tm1, ex1⟩ := r
            rw [heq] at h
            obtain ⟨rfl, rfl, rfl⟩ : te = te1 ∧ tm1 = [] ∧ ex = executeGate layout g :: ex1 := by
              simpa [eq_comm] using h.symm
            exact ih _ _ heq
        · rw [if_neg hd] at h
          cases heq : updateToMapGo dev layout rest ([] ++ [q1, q2]) with
          | none => rw [heq] at h; exact absurd h (by simp)
          | some r =>
            obtain ⟨te1, tm1, ex1⟩ := r
            rw [heq] at h
            exact absurd h (by simp)
      · exact absurd h (by simp)

/-- With an empty busy set, when a single-gate-mode classification finds a
remote gate, that gate heads both `to_execute` and `to_map` and is a
non-special two-operand gate: every earlier gate was executed. -/
theorem updateToExecGo_head (dev : Device) (layout : Layout) :
    ∀ gates te tm ex,
      updateToExecGo dev layout gates [] = some (te, tm, ex) → tm ≠ [] →
      ∃ g1 te1 tm1, te = g1 :: te1 ∧ tm = g1 :: tm1 ∧ countedGate g1 = true := by
  intro gates
  induction gates with
  | nil =>
    intro te tm ex h htm
    simp only [updateToExecGo] at h
    exact absurd (by simpa using h.symm : te = [] ∧ tm = [] ∧ ex = []).2.1 htm
  | cons g rest ih =>
    intro te tm ex h htm
    simp only [updateToExecGo] at h
    split_ifs at h with hsp hemp hbusy hbusy
    · exact ih te tm ex h htm
    · exact absurd hbusy (by simp)
    · cases heq : updateToExecGo dev layout rest [] with
      | none => rw [heq] at h; exact absurd h (by simp)
      | some r =>
        obtain ⟨te1, tm1, ex1⟩ := r
        rw [heq] at h
        obtain ⟨rfl, rfl, rfl⟩ : te = te1 ∧ tm = tm1 ∧ ex = executeGate layout g :: ex1 := by
          simpa using h.symm
        exact ih _ _ _ heq htm
    · exact absurd hbusy (by simp)
    · rcases hq : g.qargs with _ | ⟨q1, _ | ⟨q2, _ | _⟩⟩ <;> rw [hq] at h <;> dsimp only at h
      · exact absurd h (by simp)
      · cases heq : updateToExecGo dev layout rest [] with
        | none => rw [heq] at h; exact absurd h (by simp)
        | some r =>
          obtain ⟨te1, tm1, ex1⟩ := r
          rw [heq] at h
          obtain ⟨rfl, rfl, rfl⟩ : te = te1 ∧ tm = tm1 ∧ ex = executeGate layout g :: ex1 := by
            simpa using h.symm
          exact ih _ _ _ heq htm
      · by_cases hd : dev.distance (physOf layout q1) (physOf layout q2) = 1
        · rw [if_pos hd] at h
          cases heq : updateToExecGo dev layout rest [] with
          | none => rw [heq] at h; exact absurd h (by simp)
          | some r =>
            obtain ⟨te1, tm1, ex1⟩ := r
            rw [heq] at h
            obtain ⟨rfl, rfl, rfl⟩ : te = te1 ∧ tm = tm1 ∧ ex = executeGate layout g :: ex1 := by
              simpa using h.symm
            exact ih _ _ _ heq htm
        · rw [if_neg hd] at h
          cases heq : updateToExecGo dev layout rest ([] ++ [q1, q2]) with
          | none => rw [heq] at h; exact absurd h (by simp)
          | some r =>
            obtain ⟨te1, tm1, ex1⟩ := r
            rw [heq] at h
            obtain ⟨rfl, rfl, rfl⟩ : te = g :: te1 ∧ tm = g :: tm1 ∧ ex = ex1 := by
              simpa using h.symm
            refine ⟨g, te1, tm1, rfl, rfl, ?_⟩
            simp [countedGate, hq]
            simpa using hsp
      · exact absurd h (by simp)


/-- `distContrib` never fails when the device diameter is not 1 (the reached
invocations always have a remote pair, so the real diameter is at least 2). -/
theorem distContrib_some (dev : Device) (layout : Layout) (g : Gate)
    (hmax : dev.maxDistance ≠ 1) : ∃ c, distContrib dev layout g = some c := by
  unfold distContrib
  by_cases h1 : dev.distance (physOf layout (g.qargs.getD 0 0)) (physOf layout (g.qargs.getD 1 0)) = 1
  · rw [if_pos h1]
    exact ⟨0, rfl⟩
  · rw [if_neg h1, if_neg hmax]
    exact ⟨_, rfl⟩

/-- The front-layer distance loop of `score_swap_alpha` never fails for a
device of diameter other than 1. -/
theorem distMapLoop_some (dev : Device) (layout : Layout)
    (hmax : dev.maxDistance ≠ 1) :
    ∀ l acc, ∃ r, distMapLoop dev layout l acc = some r := by
  intro l
  induction l with
  | nil => exact fun acc => ⟨acc, rfl⟩
  | cons g rest ih =>
    intro acc
    obtain ⟨c, hc⟩ := distContrib_some dev layout g hmax
    simpa [distMapLoop, hc] using ih (acc + c)

/-- The `to_execute` distance loop never fails for a device of diameter
other than 1, and its gate count never decreases. -/
theorem distExecLoop_some (dev : Device) (layout : Layout)
    (hmax : dev.maxDistance ≠ 1) :
    ∀ l ng acc cnt, ∃ p, distExecLoop dev layout l ng acc cnt = some p ∧ cnt ≤ p.2 := by
  intro l
  induction l with
  | nil => exact fun ng acc cnt => ⟨(acc, cnt), rfl, le_refl _⟩
  | cons g rest ih =>
    intro ng acc cnt
    by_cases hcg : countedGate g
    · obtain ⟨c, hc⟩ := distContrib_some dev layout g hmax
      by_cases hng : ng - 1 = 0
      · exact ⟨(acc + c, cnt + 1), by simp [distExecLoop, hcg, hc, hng], by omega⟩
      · obtain ⟨p, hp, hle⟩ := ih (ng - 1) (acc + c) (cnt + 1)
        exact ⟨p, by simp [distExecLoop, hcg, hc, hng, hp], by omega⟩
    · simpa [distExecLoop, hcg] using ih ng acc cnt

/-- The `to_execute` distance loop counts at least one gate when its input
is headed by a counted gate. -/
theorem distExecLoop_head (dev : Device) (layout : Layout)
    (hmax : dev.maxDistance ≠ 1) (g1 : Gate) (r1 : List Gate)
    (hcg : countedGate g1 = true) (ng : Int) (acc : ℚ) (cnt : Nat) :
    ∃ p, distExecLoop dev layout (g1 :: r1) ng acc cnt = some p ∧ cnt + 1 ≤ p.2 := by
  obtain ⟨c, hc⟩ := distContrib_some dev layout g1 hmax
  by_cases hng : ng - 1 = 0
  · exact ⟨(acc + c, cnt + 1), by simp [distExecLoop, hcg, hc, hng], le_refl _⟩
  · obtain ⟨p, hp, hle⟩ := distExecLoop_some dev layout hmax r1 (ng - 1) (acc + c) (cnt + 1)
    exact ⟨p, by simp [distExecLoop, hcg, hc, hng, hp], hle⟩

/-- `score_swap_alpha` succeeds whenever at least one gate feeds both its
averages: a non-empty front layer, or a `to_execute` list headed by a
two-operand non-special gate together with a positive `next_gates`. -/
theorem scoreSwapAlpha_some (cfg : Config) (dev : Device) (s : Nat × Nat)
    (layout : Layout) (toExec toMap : List Gate)
    (hmax : dev.maxDistance ≠ 1)
    (hfeed : toMap ≠ [] ∨
      (1 ≤ cfg.nextGates ∧ ∃ g1 r1, toExec = g1 :: r1 ∧ countedGate g1 = true)) :
    ∃ r, scoreSwapAlpha cfg dev s layout toExec toMap = some r := by
  rcases hfeed with htm | ⟨hng, g1, r1, hte, hcg⟩
  · unfold scoreSwapAlpha
    dsimp only
    have hne : (toMap.map (gateReliab dev (layoutSwap layout s.1 s.2)) ++
        (((toExec.take cfg.nextGates).filter countedGate).map
          (gateReliab dev (layoutSwap layout s.1 s.2)))).isEmpty = false := by
      rcases toMap with _ | ⟨g, l⟩
      · exact absurd rfl htm
      · simp
    rw [hne]
    simp only [Bool.false_eq_true, if_false]
    obtain ⟨dm, hdm⟩ := distMapLoop_some dev (layoutSwap layout s.1 s.2) hmax toMap 0
    obtain ⟨⟨dx, cnt⟩, hdx, hle⟩ := distExecLoop_some dev (layoutSwap layout s.1 s.2) hmax
      toExec (cfg.nextGates : Int) dm toMap.length
    have hcnt : ¬ cnt = 0 := by
      have := List.length_pos.mpr htm
      omega
    exact ⟨_, by simp only [hdm, hdx]; rw [if_neg hcnt]⟩
  · subst hte
    unfold scoreSwapAlpha
    dsimp only
    have hne : (toMap.map (gateReliab dev (layoutSwap layout s.1 s.2)) ++
        ((((g1 :: r1).take cfg.nextGates).filter countedGate).map
          (gateReliab dev (layoutSwap layout s.1 s.2)))).isEmpty = false := by
      rcases hn : cfg.nextGates with _ | n
      · omega
      · simp [List.filter_cons, hcg]
    rw [hne]
    simp only [Bool.false_eq_true, if_false]
    obtain ⟨dm, hdm⟩ := distMapLoop_some dev (layoutSwap layout s.1 s.2) hmax toMap 0
    obtain ⟨⟨dx, cnt⟩, hdx, hle⟩ := distExecLoop_head dev (layoutSwap layout s.1 s.2) hmax
      g1 r1 hcg (cfg.nextGates : Int) dm toMap.length
    have hcnt : ¬ cnt = 0 := by omega
    exact ⟨_, by simp only [hdm, hdx]; rw [if_neg hcnt]⟩


/-- **C10.** In every invocation of `score_swap_alpha` that
`NoiseAdaptiveSwap.run` reaches — front mode calls it with the (non-empty)
front layer as `to_map`, single-gate mode with `to_map = None` but with a
`to_execute` produced by `update_to_execute` whose head is the remote
front gate itself — at least one reliability is collected and at least one
gate is counted, so `reliab /= len(reliabs)` and `distance /= count` divide
by non-zero denominators and the call returns a score.  (`hmax` records that
the device diameter is not 1, which holds whenever a remote gate exists;
`hng` is the positive `next_gates` option, default 5.) -/
theorem claim_C10_score_denominators (cfg : Config) (dev : Device)
    (hmax : dev.maxDistance ≠ 1) (hng : 1 ≤ cfg.nextGates) :
    (∀ s layout toExec toMap, toMap ≠ [] →
      ∃ r, scoreSwapAlpha cfg dev s layout toExec toMap = some r) ∧
    (∀ s layout gates te tm ex,
      updateToExecGo dev layout gates [] = some (te, tm, ex) → tm ≠ [] →
      ∃ r, scoreSwapAlpha cfg dev s layout te [] = some r) := by
  constructor
  · intro s layout toExec toMap htm
    exact scoreSwapAlpha_some cfg dev s layout toExec toMap hmax (Or.inl htm)
  · intro s layout gates te tm ex h htm
    obtain ⟨g1, te1, tm1, rfl, rfl, hcg⟩ :=
      updateToExecGo_head dev layout gates te tm ex h htm
    exact scoreSwapAlpha_some cfg dev s layout _ [] hmax
      (Or.inr ⟨hng, g1, te1, rfl, hcg⟩)

/-- Witness for C10: the single-gate-mode invocation the router reaches for
the remote CNOT `CX(0,3)` on the path `0-1-2-3` returns a score. -/
theorem claim_C10_score_denominators_witness :
    ∃ r, scoreSwapAlpha cfgS dev4 (3, 2) [0, 1, 2, 3] [cxG 0 3] [] = some r :=
  (claim_C10_score_denominators cfgS dev4 (by decide) (by decide)).2
    (3, 2) [0, 1, 2, 3] [cxG 0 3] [cxG 0 3] [cxG 0 3] [] (by decide) (by decide)

/-- **C9 (amended).** In front-layer mode the three classification lists are
pairwise disjoint in the only sense available (each input gate lands in
exactly one list; on duplicate-free inputs `to_execute` and `to_map` share
no gate, and `executed` holds remapped copies of the remaining gates).  In
single-gate mode, however, `to_map` is a sublist of `to_execute`: the
remote front gate is kept in both, so those two lists are NOT disjoint. -/
theorem claim_C9_classification_lists (dev : Device) (layout : Layout) :
    (∀ gates busy te tm ex, updateToMapGo dev layout gates busy = some (te, tm, ex) →
      (te ++ tm).Subperm gates ∧ (gates.Nodup → te.Disjoint tm)) ∧
    (∀ gates busy te tm ex, updateToExecGo dev layout gates busy = some (te, tm, ex) →
      tm.Sublist te) := by
  constructor
  · intro gates busy te tm ex h
    have hsub := (updateToMapGo_spec dev layout gates busy te tm ex h).2.2.2.1
    refine ⟨hsub, fun hnd => ?_⟩
    obtain ⟨l, hperm, hsl⟩ := hsub
    have hnd2 : (te ++ tm).Nodup := hperm.nodup (hnd.sublist hsl)
    exact ((List.nodup_append).mp hnd2).2.2
  · intro gates busy te tm ex h
    exact (updateToExecGo_spec dev layout gates busy te tm ex h).2.2.2.2.1

/-- Witness for C9's amended statement at a concrete classification. -/
theorem claim_C9_classification_lists_witness :
    (([] : List Gate) ++ [cxG 0 2]).Subperm [cxG 0 2] ∧
    ([cxG 0 2] : List Gate).Sublist [cxG 0 2] :=
  ⟨((claim_C9_classification_lists dev4 [0, 1, 2, 3]).1
      [cxG 0 2] [] [] [cxG 0 2] [] (by decide)).1,
    (claim_C9_classification_lists dev4 [0, 1, 2, 3]).2
      [cxG 0 2] [] [cxG 0 2] [cxG 0 2] [] (by decide)⟩

/-- Counterexample to C9 as stated: in single-gate mode the remote gate
`CX(0,2)` is classified into BOTH `to_execute` and `to_map`, so the three
lists are not pairwise disjoint. -/
theorem claim_C9_counterexample :
    updateToExecGo dev4 [0, 1, 2, 3] [cxG 0 2] [] =
      some ([cxG 0 2], [cxG 0 2], []) ∧
    ¬ ([cxG 0 2] : List Gate).Disjoint [cxG 0 2] := by
  refine ⟨by decide, fun h => ?_⟩
  exact h (List.mem_singleton.mpr rfl) (List.mem_singleton.mpr rfl)

set_option maxHeartbeats 2000000 in
/-- **C8.** Evaluating `possible_swaps` at the failing input: on the path
`0-1-2-3` with the remote CNOT `CX(0,3)` (physical endpoints `a = 0`,
`b = 3`) and default options, the shared-record aliasing makes the call
return two aliases of the LAST written candidate `(3, 2)` — the claimed
mandatory candidate `(a, pred(b,a)) = (0, 1)` (second conjunct: the
predecessor table puts `pred(3,0) = 1`) is absent and the entries are not
pairwise distinct. -/
theorem claim_C8_aliased_candidates :
    possibleSwaps cfgS dev4 (cxG 0 3) [0, 1, 2, 3] [cxG 0 3] =
      some [((3, 2), 3/4), ((3, 2), 3/4)] ∧
    dev4.swapPaths 3 0 = some 1 := by
  refine ⟨?_, by decide⟩
  have hs1 : scoreSwapAlpha cfgS dev4 (0, 1) [0, 1, 2, 3] [cxG 0 3] [] = some (3/4) := by
    simp [scoreSwapAlpha, gateReliab, distExecLoop, distMapLoop, distContrib,
      cfgS, dev4, cxG, physOf, layoutSwap, countedGate, isSpecial]
    norm_num
  have hs2 : scoreSwapAlpha cfgS dev4 (3, 2) [0, 1, 2, 3] [cxG 0 3] [] = some (3/4) := by
    simp [scoreSwapAlpha, gateReliab, distExecLoop, distMapLoop, distContrib,
      cfgS, dev4, cxG, physOf, layoutSwap, countedGate, isSpecial]
    norm_num
  have hq0 : physOf [0, 1, 2, 3] ((cxG 0 3).qargs[0]?.getD 0) = 0 := rfl
  have hq1 : physOf [0, 1, 2, 3] ((cxG 0 3).qargs[1]?.getD 0) = 3 := rfl
  have hn0 : dev4.neighbors 0 = [1] := rfl
  have hn3 : dev4.neighbors 3 = [2] := rfl
  have hp1 : dev4.swapPaths 3 0 = some 1 := by decide
  have hp2 : dev4.swapPaths 0 3 = some 2 := by decide
  have hsp : dev4.shortestPath 0 3 = [0, 1, 2, 3] := by decide
  have hcn : cfgS.nSwaps = 4 := rfl
  simp [possibleSwaps, extraSwapScores, psFirst, psSecond, psShortest,
    hq0, hq1, hn0, hn3, hp1, hp2, hsp, hcn, hs1, hs2]


/-- Candidates produced by the shortest-path block are adjacent pairs. -/
theorem psShortest_adj (cfg : Config) (dev : Device) (layout : Layout)
    (toExec : List Gate) (a b degSum : Nat) (cands : List Cand)
    (hsp : ∀ a b, 2 ≤ (dev.shortestPath a b).length →
      dev.distance b ((dev.shortestPath a b).getD ((dev.shortestPath a b).length - 2) 0) = 1)
    (h : psShortest cfg dev layout toExec a b degSum = some cands) :
    ∀ c ∈ cands, dev.distance c.1.1 c.1.2 = 1 := by
  unfold psShortest at h
  split_ifs at h with hlen
  split at h
  · exact absurd h (by simp)
  · split at h
    · exact absurd h (by simp)
    · rename_i s4 hs4
      obtain rfl : cands = List.replicate (min cfg.nSwaps degSum)
          ((b, (dev.shortestPath a b).getD ((dev.shortestPath a b).length - 2) 0), s4) := by
        simpa using h.symm
      intro c hc
      obtain rfl := List.eq_of_mem_replicate hc
      exact hsp a b (by omega)

/-- Candidates produced by the second block are adjacent pairs. -/
theorem psSecond_adj (cfg : Config) (dev : Device) (layout : Layout)
    (toExec : List Gate) (a b degSum : Nat) (cands : List Cand)
    (hpred : ∀ i j p, dev.swapPaths i j = some p → dev.distance j p = 1)
    (hsp : ∀ a b, 2 ≤ (dev.shortestPath a b).length →
      dev.distance b ((dev.shortestPath a b).getD ((dev.shortestPath a b).length - 2) 0) = 1)
    (h : psSecond cfg dev layout toExec a b degSum = some cands) :
    ∀ c ∈ cands, dev.distance c.1.1 c.1.2 = 1 := by
  unfold psSecond at h
  split at h
  · exact absurd h (by simp)
  · rename_i p2 hp2
    split at h
    · exact absurd h (by simp)
    · split_ifs at h with hdeg h2
      · obtain rfl : cands = List.replicate 2 ((b, p2), _) := by simpa using h.symm
        intro c hc
        obtain rfl := List.eq_of_mem_replicate hc
        exact hpred a b p2 hp2
      · exact psShortest_adj cfg dev layout toExec a b degSum cands hsp h

/-- Candidates produced by the first block are adjacent pairs. -/
theorem psFirst_adj (cfg : Config) (dev : Device) (layout : Layout)
    (toExec : List Gate) (a b degSum : Nat) (cands : List Cand)
    (hpred : ∀ i j p, dev.swapPaths i j = some p → dev.distance j p = 1)
    (hsp : ∀ a b, 2 ≤ (dev.shortestPath a b).length →
      dev.distance b ((dev.shortestPath a b).getD ((dev.shortestPath a b).length - 2) 0) = 1)
    (h : psFirst cfg dev layout toExec a b degSum = some cands) :
    ∀ c ∈ cands, dev.distance c.1.1 c.1.2 = 1 := by
  unfold psFirst at h
  split at h
  · exact absurd h (by simp)
  · rename_i p1 hp1
    split at h
    · exact absurd h (by simp)
    · split_ifs at h with hdeg h1
      · obtain rfl : cands = [((a, p1), _)] := by simpa using h.symm
        intro c hc
        obtain rfl := List.mem_singleton.mp hc
        exact hpred b a p1 hp1
      · exact psSecond_adj cfg dev layout toExec a b degSum cands hpred hsp h

/-- Every candidate `possible_swaps` returns is a pair of adjacent physical
qubits. -/
theorem possibleSwaps_adj (cfg : Config) (dev : Device) (remote : Gate)
    (layout : Layout) (toExec : List Gate) (cands : List Cand)
    (hdev : DeviceOK dev)
    (h : possibleSwaps cfg dev remote layout toExec = some cands) :
    ∀ c ∈ cands, dev.distance c.1.1 c.1.2 = 1 := by
  obtain ⟨hnb, hpred, hsp⟩ := hdev
  unfold possibleSwaps at h
  split_ifs at h
  split at h
  · exact psFirst_adj cfg dev layout toExec _ _ _ cands hpred hsp h
  · exact absurd h (by simp)


/-- The candidate loop of `new_possible_swaps` only proposes pairs from its
input list. -/
theorem npsGo_pairs (cfg : Config) (dev : Device) (layout : Layout)
    (toExec toMap : List Gate) :
    ∀ pairs sq cands, npsGo cfg dev layout toExec toMap pairs sq = some cands →
      ∀ c ∈ cands, c.1 ∈ pairs := by
  intro pairs
  induction pairs with
  | nil =>
    intro sq cands h c hc
    simp only [npsGo] at h
    obtain rfl : cands = [] := by simpa using h.symm
    exact absurd hc (by simp)
  | cons p rest ih =>
    intro sq cands h c hc
    obtain ⟨q, v⟩ := p
    simp only [npsGo] at h
    split_ifs at h with hsq
    · exact List.mem_cons_of_mem _ (ih sq cands h c hc)
    · split at h
      · exact absurd h (by simp)
      · rename_i sc hsc
        split at h
        · exact absurd h (by simp)
        · rename_i others hothers
          obtain rfl : cands = ((q, v), sc) :: others := by simpa using h.symm
          rcases List.mem_cons.mp hc with rfl | hc
          · exact List.mem_cons_self _ _
          · exact List.mem_cons_of_mem _ (ih _ _ hothers c hc)

/-- Every candidate `new_possible_swaps` returns swaps a wire of the front
layer with one of its neighbours, hence an adjacent pair. -/
theorem newPossibleSwaps_adj (cfg : Config) (dev : Device) (toMap : List Gate)
    (layout : Layout) (toExec : List Gate) (n : Nat)
    (lastSwap : Option (Nat × Nat)) (cands : List Cand)
    (hnb : ∀ q v, v ∈ dev.neighbors q → dev.distance q v = 1)
    (h : newPossibleSwaps cfg dev toMap layout toExec n lastSwap = some cands) :
    ∀ c ∈ cands, dev.distance c.1.1 c.1.2 = 1 := by
  unfold newPossibleSwaps at h
  split at h
  · exact absurd h (by simp)
  · rename_i cands0 hgo
    obtain rfl : cands = (cands0.mergeSort (fun c1 c2 => decide (c2.2 ≤ c1.2))).take n := by
      simpa using h.symm
    intro c hc
    have hc0 : c ∈ cands0 :=
      (List.mergeSort_perm cands0 _).mem_iff.mp (List.take_subset _ _ hc)
    have hpair := npsGo_pairs cfg dev layout toExec toMap _ _ _ hgo c hc0
    obtain ⟨q, hq, hv⟩ := List.mem_flatMap.mp hpair
    obtain ⟨v, hv2, hcv⟩ := List.mem_map.mp hv
    rw [← hcv]
    exact hnb q v hv2


/-- A fold that always keeps either the accumulator or the new element
stays inside the candidate pool. -/
theorem foldl_choice_mem {α : Type} (f : α → α → α) (hf : ∀ b c, f b c = b ∨ f b c = c) :
    ∀ (l : List α) (b : α), List.foldl f b l ∈ b :: l := by
  intro l
  induction l with
  | nil => intro b; simp
  | cons c cs ih =>
    intro b
    have hm := ih (f b c)
    have hgoal : List.foldl f b (c :: cs) = List.foldl f (f b c) cs := rfl
    rw [hgoal]
    rcases List.mem_cons.mp hm with h1 | h1
    · rcases hf b c with heq | heq
      · rw [h1, heq]; exact List.mem_cons_self _ _
      · rw [h1, heq]; exact List.mem_cons_of_mem _ (List.mem_cons_self _ _)
    · exact List.mem_cons_of_mem _ (List.mem_cons_of_mem _ h1)

/-- The argmax of `search_layout`'s candidate loop picks one of the
evaluated children. -/
theorem pickBest_mem (l : List (Cand × Step)) (x : Cand × Step)
    (h : pickBest l = some x) : x ∈ l := by
  cases l with
  | nil => simp [pickBest] at h
  | cons a rest =>
    simp only [pickBest, Option.some.injEq] at h
    subst h
    exact foldl_choice_mem _ (fun b c => by
      by_cases hc : c.2.score > b.2.score <;> simp [hc]) rest a

/-- Executed gates inherit the input's names, so a swap-free input yields a
swap-free executed list (single-gate mode). -/
theorem execFilter_exec (dev : Device) (layout : Layout) (gates : List Gate)
    (busy : List Nat) (te tm ex : List Gate)
    (h : updateToExecGo dev layout gates busy = some (te, tm, ex))
    (hsw : ∀ g ∈ gates, notSwap g = true) : ex.filter notSwap = ex := by
  refine List.filter_eq_self.mpr fun g hg => ?_
  obtain ⟨g0, hg0, rfl⟩ := (updateToExecGo_spec dev layout gates busy te tm ex h).2.2.2.2.2.2 g hg
  exact hsw g0 hg0

/-- Executed gates inherit the input's names (front-layer mode). -/
theorem execFilter_map (dev : Device) (layout : Layout) (gates : List Gate)
    (busy : List Nat) (te tm ex : List Gate)
    (h : updateToMapGo dev layout gates busy = some (te, tm, ex))
    (hsw : ∀ g ∈ gates, notSwap g = true) : ex.filter notSwap = ex := by
  refine List.filter_eq_self.mpr fun g hg => ?_
  obtain ⟨g0, hg0, rfl⟩ := (updateToMapGo_spec dev layout gates busy te tm ex h).2.2.2.2.2 g hg
  exact hsw g0 hg0

/-- The inserted swap gate is a non-special two-operand gate on exactly the
chosen physical pair. -/
theorem swapGateOf_adjOut (dev : Device) (p : Nat × Nat)
    (hd : dev.distance p.1 p.2 = 1) : adjOut dev (swapGateOf p) := by
  intro _ _
  simpa [swapGateOf] using hd

/-- The single-gate-mode invariant of `search_layout`: for a swap-free gate
list, the returned step's non-swap executed gates together with its
remaining `to_execute` are exactly the surviving input gates (as a multiset
of identities) and the remaining gates are swap-free survivors; for a
well-formed device every executed gate (inserted swaps included) passes the
adjacency test. -/
theorem searchLayout_single_spec (cfg : Config) (dev : Device)
    (hfr : cfg.front = false) :
    ∀ iter tmIn layout gates last step,
      searchLayout cfg dev iter tmIn layout gates last = some step →
      ((∀ g ∈ gates, notSwap g = true) →
        (((step.executed.filter notSwap).map ident ++ step.toExec.map ident).Perm
          ((gates.filter keepG).map ident)) ∧
        (∀ g ∈ step.toExec, notSwap g = true ∧ keepG g = true)) ∧
      (DeviceOK dev → ∀ g ∈ step.executed, adjOut dev g) := by
  intro iter
  induction iter with
  | zero =>
    intro tmIn layout gates last step h
    rw [searchLayout] at h
    rw [show classify cfg dev tmIn layout gates = updateToExecGo dev layout gates [] by
      simp [classify, hfr]] at h
    cases heq : updateToExecGo dev layout gates [] with
    | none => rw [heq] at h; exact absurd h (by simp)
    | some r =>
      obtain ⟨te, tm, ex⟩ := r
      rw [heq] at h
      obtain rfl : step = ⟨tm, te, ex, 1, layout⟩ := by simpa using h.symm
      obtain ⟨hperm, hte, htm, hkeep, hsub, hadj, hor⟩ :=
        updateToExecGo_spec dev layout gates [] te tm ex heq
      refine ⟨fun hsw => ⟨?_, ?_⟩, fun _ => hadj⟩
      · rw [execFilter_exec dev layout gates [] te tm ex heq hsw]
        exact hperm
      · exact fun g hg => ⟨hsw g (hte g hg), hkeep g hg⟩
  | succ iter ih =>
    intro tmIn layout gates last step h
    rw [searchLayout] at h
    rw [show classify cfg dev tmIn layout gates = updateToExecGo dev layout gates [] by
      simp [classify, hfr]] at h
    split at h
    · exact absurd h (by simp)
    · rename_i r te tm ex heq
      obtain ⟨hperm, hte, htm, hkeep, hsub, hadj, hor⟩ :=
        updateToExecGo_spec dev layout gates [] te tm ex heq
      split_ifs at h with htm0 hfront
      · obtain rfl : step = ⟨tm, te, ex, 1, layout⟩ := by simpa using h.symm
        refine ⟨fun hsw => ⟨?_, fun g hg => ⟨hsw g (hte g hg), hkeep g hg⟩⟩, fun _ => hadj⟩
        rw [execFilter_exec dev layout gates [] te tm ex heq hsw]
        exact hperm
      · exact absurd hfront (by simp [hfr])
      · split at h
        · exact absurd h (by simp)
        · rename_i o1 cands hcands
          split at h
          · exact absurd h (by simp)
          · rename_i o2 children hch
            split at h
            · exact absurd h (by simp)
            · rename_i o3 bc bst hpb
              obtain rfl : step = ⟨bst.toMap, bst.toExec,
                  ex ++ [swapGateOf bc.1] ++ bst.executed, bst.score, bst.layout⟩ := by
                simpa using h.symm
              have hchild : ∀ cands' children',
                  searchChildren cfg dev (searchLayout cfg dev iter) cands' tm layout te = some children' →
                  ∀ p ∈ children', p.1 ∈ cands' ∧
                    ((∀ g ∈ te, notSwap g = true) →
                      (((p.2.executed.filter notSwap).map ident ++ p.2.toExec.map ident).Perm
                        ((te.filter keepG).map ident)) ∧
                      (∀ g ∈ p.2.toExec, notSwap g = true ∧ keepG g = true)) ∧
                    (DeviceOK dev → ∀ g ∈ p.2.executed, adjOut dev g) := by
                intro cands'
                induction cands' with
                | nil =>
                  intro children' hchn p hp
                  simp only [searchChildren] at hchn
                  obtain rfl : children' = [] := by simpa using hchn.symm
                  exact absurd hp (by simp)
                | cons c crest ihc =>
                  intro children' hchn p hp
                  simp only [searchChildren] at hchn
                  split at hchn
                  · exact absurd hchn (by simp)
                  · rename_i st hst
                    split at hchn
                    · exact absurd hchn (by simp)
                    · rename_i others hrest
                      obtain rfl : children' =
                          (c, { st with score := c.2 * st.score }) :: others := by
                        simpa using hchn.symm
                      rcases List.mem_cons.mp hp with rfl | hp
                      · obtain ⟨h1, h3⟩ := ih (if cfg.front then tm else [])
                          (layoutSwap layout c.1.1 c.1.2) te (some c.1) st hst
                        exact ⟨List.mem_cons_self _ _, h1, h3⟩
                      · obtain ⟨m1, m2⟩ := ihc others hrest p hp
                        exact ⟨List.mem_cons_of_mem _ m1, m2⟩
              obtain ⟨hbcmem, hbrest, hbadj⟩ :=
                hchild cands children hch (bc, bst) (pickBest_mem children (bc, bst) hpb)
              refine ⟨fun hsw => ?_, ?_⟩
              · have hteprops : ∀ g ∈ te, notSwap g = true ∧ keepG g = true :=
                  fun g hg => ⟨hsw g (hte g hg), hkeep g hg⟩
                obtain ⟨hbperm, hbte⟩ := hbrest fun g hg => (hteprops g hg).1
                have hteFilter : te.filter keepG = te :=
                  List.filter_eq_self.mpr fun g hg => (hteprops g hg).2
                refine ⟨?_, hbte⟩
                have hexf : ex.filter notSwap = ex :=
                  execFilter_exec dev layout gates [] te tm ex heq hsw
                have hsplit : ((ex ++ [swapGateOf bc.1] ++ bst.executed).filter notSwap) =
                    ex ++ bst.executed.filter notSwap := by
                  simp [List.filter_append, hexf, notSwap, swapGateOf]
                rw [hsplit]
                rw [hteFilter] at hbperm
                have e1 : ((ex ++ bst.executed.filter notSwap).map ident ++
                    bst.toExec.map ident) = ex.map ident ++
                    ((bst.executed.filter notSwap).map ident ++ bst.toExec.map ident) := by
                  simp
                rw [e1]
                exact (List.Perm.append_left (List.map ident ex) hbperm).trans hperm
              · intro hdev g hg
                cases htm1 : tm with
                | nil => rw [htm1] at htm0; simp at htm0
                | cons g0 tmr =>
                  rw [htm1] at hcands
                  rcases List.mem_append.mp hg with hg | hg
                  rcases List.mem_append.mp hg with hg | hg
                  · exact hadj g hg
                  · obtain rfl := List.mem_singleton.mp hg
                    exact swapGateOf_adjOut dev bc.1
                      (possibleSwaps_adj cfg dev g0 layout te cands hdev hcands bc hbcmem)
                  · exact hbadj hdev g hg


/-- The front-layer-mode invariant of `search_layout`: as in single-gate
mode, but the pending gates split between `to_execute` and the front layer
`to_map`, and an empty front layer forces an empty `to_execute`. -/
theorem searchLayout_front_spec (cfg : Config) (dev : Device)
    (hfr : cfg.front = true) :
    ∀ iter tmIn layout gates last step,
      searchLayout cfg dev iter tmIn layout gates last = some step →
      ((∀ g ∈ tmIn ++ gates, notSwap g = true) →
        (((step.executed.filter notSwap).map ident ++ step.toExec.map ident ++
            step.toMap.map ident).Perm (((tmIn ++ gates).filter keepG).map ident)) ∧
        (∀ g ∈ step.toExec ++ step.toMap, notSwap g = true ∧ keepG g = true)) ∧
      (step.toMap = [] → step.toExec = []) ∧
      (DeviceOK dev → ∀ g ∈ step.executed, adjOut dev g) := by
  intro iter
  induction iter with
  | zero =>
    intro tmIn layout gates last step h
    rw [searchLayout] at h
    rw [show classify cfg dev tmIn layout gates =
        updateToMapGo dev layout (tmIn ++ gates) [] by simp [classify, hfr]] at h
    cases heq : updateToMapGo dev layout (tmIn ++ gates) [] with
    | none => rw [heq] at h; exact absurd h (by simp)
    | some r =>
      obtain ⟨te, tm, ex⟩ := r
      rw [heq] at h
      obtain rfl : step = ⟨tm, te, ex, 1, layout⟩ := by simpa using h.symm
      obtain ⟨hperm, hte, htm, hsub, hadj, hor⟩ :=
        updateToMapGo_spec dev layout (tmIn ++ gates) [] te tm ex heq
      refine ⟨fun hsw => ⟨?_, ?_⟩, ?_, fun _ => hadj⟩
      · rw [execFilter_map dev layout (tmIn ++ gates) [] te tm ex heq hsw]
        exact hperm
      · intro g hg
        rcases List.mem_append.mp hg with hg | hg
        · exact ⟨hsw g (hte g hg).1, (hte g hg).2⟩
        · exact ⟨hsw g (htm g hg).1, (htm g hg).2⟩
      · intro htm0
        subst htm0
        exact updateToMapGo_empty dev layout (tmIn ++ gates) te ex heq
  | succ iter ih =>
    intro tmIn layout gates last step h
    rw [searchLayout] at h
    rw [show classify cfg dev tmIn layout gates =
        updateToMapGo dev layout (tmIn ++ gates) [] by simp [classify, hfr]] at h
    split at h
    · exact absurd h (by simp)
    · rename_i r te tm ex heq
      obtain ⟨hperm, hte, htm, hsub, hadj, hor⟩ :=
        updateToMapGo_spec dev layout (tmIn ++ gates) [] te tm ex heq
      split_ifs at h with htm0
      · obtain rfl : step = ⟨tm, te, ex, 1, layout⟩ := by simpa using h.symm
        refine ⟨fun hsw => ⟨?_, ?_⟩, ?_, fun _ => hadj⟩
        · rw [execFilter_map dev layout (tmIn ++ gates) [] te tm ex heq hsw]
          exact hperm
        · intro g hg
          rcases List.mem_append.mp hg with hg | hg
          · exact ⟨hsw g (hte g hg).1, (hte g hg).2⟩
          · exact ⟨hsw g (htm g hg).1, (htm g hg).2⟩
        · intro htme
          subst htme
          exact updateToMapGo_empty dev layout (tmIn ++ gates) te ex heq
      · split at h
        · exact absurd h (by simp)
        · rename_i o1 cands hcands
          split at h
          · exact absurd h (by simp)
          · rename_i o2 children hch
            split at h
            · exact absurd h (by simp)
            · rename_i o3 bc bst hpb
              obtain rfl : step = ⟨bst.toMap, bst.toExec,
                  ex ++ [swapGateOf bc.1] ++ bst.executed, bst.score, bst.layout⟩ := by
                simpa using h.symm
              have hchild : ∀ cands' children',
                  searchChildren cfg dev (searchLayout cfg dev iter) cands' tm layout te = some children' →
                  ∀ p ∈ children', p.1 ∈ cands' ∧
                    ((∀ g ∈ tm ++ te, notSwap g = true) →
                      (((p.2.executed.filter notSwap).map ident ++ p.2.toExec.map ident ++
                        p.2.toMap.map ident).Perm (((tm ++ te).filter keepG).map ident)) ∧
                      (∀ g ∈ p.2.toExec ++ p.2.toMap, notSwap g = true ∧ keepG g = true)) ∧
                    (p.2.toMap = [] → p.2.toExec = []) ∧
                    (DeviceOK dev → ∀ g ∈ p.2.executed, adjOut dev g) := by
                intro cands'
                induction cands' with
                | nil =>
                  intro children' hchn p hp
                  simp only [searchChildren] at hchn
                  obtain rfl : children' = [] := by simpa using hchn.symm
                  exact absurd hp (by simp)
                | cons c crest ihc =>
                  intro children' hchn p hp
                  simp only [searchChildren] at hchn
                  split at hchn
                  · exact absurd hchn (by simp)
                  · rename_i st hst
                    split at hchn
                    · exact absurd hchn (by simp)
                    · rename_i others hrest
                      obtain rfl : children' =
                          (c, { st with score := c.2 * st.score }) :: others := by
                        simpa using hchn.symm
                      rcases List.mem_cons.mp hp with rfl | hp
                      · rw [if_pos hfr] at hst
                        obtain ⟨h1, h3, h4⟩ := ih tm
                          (layoutSwap layout c.1.1 c.1.2) te (some c.1) st hst
                        exact ⟨List.mem_cons_self _ _, h1, h3, h4⟩
                      · obtain ⟨m1, m2⟩ := ihc others hrest p hp
                        exact ⟨List.mem_cons_of_mem _ m1, m2⟩
              obtain ⟨hbcmem, hbrest, hbmt, hbadj⟩ :=
                hchild cands children hch (bc, bst) (pickBest_mem children (bc, bst) hpb)
              refine ⟨fun hsw => ?_, hbmt, ?_⟩
              · have hteprops : ∀ g ∈ te, notSwap g = true ∧ keepG g = true :=
                  fun g hg => ⟨hsw g (hte g hg).1, (hte g hg).2⟩
                have htmprops : ∀ g ∈ tm, notSwap g = true ∧ keepG g = true :=
                  fun g hg => ⟨hsw g (htm g hg).1, (htm g hg).2⟩
                obtain ⟨hbperm, hbte⟩ := hbrest (by
                  intro g hg
                  rcases List.mem_append.mp hg with hg | hg
                  · exact (htmprops g hg).1
                  · exact (hteprops g hg).1)
                have hmtFilter : (tm ++ te).filter keepG = tm ++ te :=
                  List.filter_eq_self.mpr (by
                    intro g hg
                    rcases List.mem_append.mp hg with hg | hg
                    · exact (htmprops g hg).2
                    · exact (hteprops g hg).2)
                refine ⟨?_, hbte⟩
                have hexf : ex.filter notSwap = ex :=
                  execFilter_map dev layout (tmIn ++ gates) [] te tm ex heq hsw
                have hsplit : ((ex ++ [swapGateOf bc.1] ++ bst.executed).filter notSwap) =
                    ex ++ bst.executed.filter notSwap := by
                  simp [List.filter_append, hexf, notSwap, swapGateOf]
                rw [hsplit]
                rw [hmtFilter] at hbperm
                have e1 : ((ex ++ bst.executed.filter notSwap).map ident ++
                    bst.toExec.map ident ++ bst.toMap.map ident) = ex.map ident ++
                    ((bst.executed.filter notSwap).map ident ++ bst.toExec.map ident ++
                      bst.toMap.map ident) := by
                  simp
                rw [e1]
                have e2 : (List.map ident (tm ++ te)).Perm
                    (te.map ident ++ tm.map ident) := by
                  simpa using List.perm_append_comm
                refine ((List.Perm.append_left (List.map ident ex)
                  (hbperm.trans e2)).trans ?_)
                have e3 : ex.map ident ++ (te.map ident ++ tm.map ident) =
                    ex.map ident ++ te.map ident ++ tm.map ident := by
                  simp [List.append_assoc]
                rw [e3]
                exact hperm
              · intro hdev g hg
                rcases List.mem_append.mp hg with hg | hg
                rcases List.mem_append.mp hg with hg | hg
                · exact hadj g hg
                · obtain rfl := List.mem_singleton.mp hg
                  exact swapGateOf_adjOut dev bc.1
                    (newPossibleSwaps_adj cfg dev tm layout te 4 last cands
                      hdev.1 hcands bc hbcmem)
                · exact hbadj hdev g hg


/-- The `while to_execute:` loop of single-gate mode preserves the gate
multiset (modulo inserted swaps) and only emits adjacency-checked gates
beyond its accumulator. -/
theorem runLoopSingle_spec (cfg : Config) (dev : Device)
    (hfr : cfg.front = false) :
    ∀ fuel layout te acc out,
      runLoopSingle cfg dev fuel layout te acc = some out →
      ((∀ g ∈ te, notSwap g = true) →
        ((out.filter notSwap).map ident).Perm
          ((acc.filter notSwap).map ident ++ (te.filter keepG).map ident)) ∧
      (DeviceOK dev → ∀ g ∈ out, g ∈ acc ∨ adjOut dev g) := by
  intro fuel
  induction fuel with
  | zero =>
    intro layout te acc out h
    exact absurd h (by simp [runLoopSingle])
  | succ fuel ih =>
    intro layout te acc out h
    rw [runLoopSingle] at h
    split_ifs at h with hte0
    · obtain rfl : out = acc := by simpa using h.symm
      have hte : te = [] := by simpa using hte0
      subst hte
      exact ⟨fun _ => by simp, fun _ g hg => Or.inl hg⟩
    · split at h
      · exact absurd h (by simp)
      · rename_i st hst
        obtain ⟨hsrest, hsadj⟩ :=
          searchLayout_single_spec cfg dev hfr cfg.searchDepth [] layout te none st hst
        obtain ⟨ihrest, ihadj⟩ := ih st.layout st.toExec (acc ++ st.executed) out h
        constructor
        · intro hsw
          obtain ⟨hsperm, hste⟩ := hsrest hsw
          have hperm2 := ihrest fun g hg => (hste g hg).1
          have hstef : st.toExec.filter keepG = st.toExec :=
            List.filter_eq_self.mpr fun g hg => (hste g hg).2
          rw [hstef] at hperm2
          have e1 : (((acc ++ st.executed).filter notSwap).map ident ++
              st.toExec.map ident) = (acc.filter notSwap).map ident ++
              ((st.executed.filter notSwap).map ident ++ st.toExec.map ident) := by
            simp [List.filter_append]
          rw [e1] at hperm2
          exact hperm2.trans
            (List.Perm.append_left ((acc.filter notSwap).map ident) hsperm)
        · intro hdev g hg
          rcases ihadj hdev g hg with hg2 | hg2
          · rcases List.mem_append.mp hg2 with hg3 | hg3
            · exact Or.inl hg3
            · exact Or.inr (hsadj hdev g hg3)
          · exact Or.inr hg2

/-- The `while to_map:` loop of front-layer mode: same bookkeeping over the
pair of pending lists. -/
theorem runLoopFront_spec (cfg : Config) (dev : Device)
    (hfr : cfg.front = true) :
    ∀ fuel layout tm te acc out,
      runLoopFront cfg dev fuel layout tm te acc = some out →
      (tm = [] → te = []) →
      ((∀ g ∈ tm ++ te, notSwap g = true ∧ keepG g = true) →
        ((out.filter notSwap).map ident).Perm
          ((acc.filter notSwap).map ident ++ (tm ++ te).map ident)) ∧
      (DeviceOK dev → ∀ g ∈ out, g ∈ acc ∨ adjOut dev g) := by
  intro fuel
  induction fuel with
  | zero =>
    intro layout tm te acc out h hmt
    exact absurd h (by simp [runLoopFront])
  | succ fuel ih =>
    intro layout tm te acc out h hmt
    rw [runLoopFront] at h
    split_ifs at h with htm0
    · obtain rfl : out = acc := by simpa using h.symm
      have htm : tm = [] := by simpa using htm0
      have hte : te = [] := hmt htm
      subst htm
      subst hte
      exact ⟨fun _ => by simp, fun _ g hg => Or.inl hg⟩
    · split at h
      · exact absurd h (by simp)
      · rename_i st hst
        obtain ⟨hsrest, hsmt, hsadj⟩ :=
          searchLayout_front_spec cfg dev hfr cfg.searchDepth tm layout te none st hst
        obtain ⟨ihrest, ihadj⟩ := ih st.layout st.toMap st.toExec (acc ++ st.executed) out h hsmt
        constructor
        · intro hsw
          obtain ⟨hsperm, hste⟩ := hsrest fun g hg => (hsw g hg).1
          have hkeep2 : ∀ g ∈ st.toMap ++ st.toExec, notSwap g = true ∧ keepG g = true := by
            intro g hg
            rcases List.mem_append.mp hg with hg | hg
            · exact hste g (List.mem_append.mpr (Or.inr hg))
            · exact hste g (List.mem_append.mpr (Or.inl hg))
          have hperm2 := ihrest hkeep2
          have hmtf : (tm ++ te).filter keepG = tm ++ te :=
            List.filter_eq_self.mpr fun g hg => (hsw g hg).2
          rw [hmtf] at hsperm
          have e1 : (((acc ++ st.executed).filter notSwap).map ident ++
              (st.toMap ++ st.toExec).map ident) = (acc.filter notSwap).map ident ++
              ((st.executed.filter notSwap).map ident ++
                (st.toMap.map ident ++ st.toExec.map ident)) := by
            simp [List.filter_append]
          rw [e1] at hperm2
          refine hperm2.trans (List.Perm.append_left ((acc.filter notSwap).map ident) ?_)
          have e2 : ((st.executed.filter notSwap).map ident ++
              (st.toMap.map ident ++ st.toExec.map ident)).Perm
              ((st.executed.filter notSwap).map ident ++ st.toExec.map ident ++
                st.toMap.map ident) := by
            refine List.Perm.trans (List.Perm.append_left _ List.perm_append_comm) ?_
            simp [List.append_assoc]
          exact e2.trans hsperm
        · intro hdev g hg
          rcases ihadj hdev g hg with hg2 | hg2
          · rcases List.mem_append.mp hg2 with hg3 | hg3
            · exact Or.inl hg3
            · exact Or.inr (hsadj hdev g hg3)
          · exact Or.inr hg2


/-- **C1.** For every DAG accepted by `NoiseAdaptiveSwap.run` (on a device
whose externally computed tables satisfy `DeviceOK`), every two-qubit
non-opaque gate of the returned DAG acts on operands that are adjacent in
the coupling graph: its operands are the physical qubits of the layout in
force when it was committed, and commitment required hop distance 1 (the
inserted swap gates are adjacent as well, so the layout bookkeeping is
consistent at every position of the output). -/
theorem claim_C1_router_adjacency (cfg : Config) (dev : Device) (nq : Nat)
    (gates : List Gate) (fuel : Nat) (out : List Gate)
    (hdev : DeviceOK dev)
    (h : runRouter cfg dev nq gates fuel = some out) :
    ∀ g ∈ out, isSpecial g = false → g.qargs.length = 2 →
      dev.distance (g.qargs.getD 0 0) (g.qargs.getD 1 0) = 1 := by
  unfold runRouter at h
  by_cases hfr : cfg.front
  · rw [if_pos hfr] at h
    split at h
    · exact absurd h (by simp)
    · rename_i r te tm ex heq
      have hadj0 := (updateToMapGo_spec dev (List.range nq) ([] ++ gates) []
        te tm ex heq).2.2.2.2.1
      have hloop := (runLoopFront_spec cfg dev hfr fuel (List.range nq) tm te ex out h
        (fun htm => by
          subst htm
          exact updateToMapGo_empty dev (List.range nq) ([] ++ gates) te ex heq)).2 hdev
      intro g hg hns hlen
      rcases hloop g hg with hg2 | hg2
      · exact hadj0 g hg2 hns hlen
      · exact hg2 hns hlen
  · rw [if_neg hfr] at h
    have hloop := (runLoopSingle_spec cfg dev (by simpa using hfr) fuel
      (List.range nq) gates [] out h).2 hdev
    intro g hg hns hlen
    rcases hloop g hg with hg2 | hg2
    · exact absurd hg2 (by simp)
    · exact hg2 hns hlen

/-- Witness for C1: routing the already-adjacent `CX(0,1)` on the
two-qubit device returns it remapped in place, and the theorem applies. -/
theorem claim_C1_router_adjacency_witness :
    DeviceOK dev2 ∧
    dev2.distance ((cxG 0 1).qargs.getD 0 0) ((cxG 0 1).qargs.getD 1 0) = 1 := by
  have hdev : DeviceOK dev2 := by
    refine ⟨?_, ?_, ?_⟩
    · intro q v hv
      match q with
      | 0 => simp [dev2] at hv; subst hv; decide
      | 1 => simp [dev2] at hv; subst hv; decide
      | n + 2 => simp [dev2] at hv
    · intro i j p hp
      simp [dev2] at hp
    · intro a b hl
      simp [dev2] at hl
  have hrun : runRouter cfgS dev2 2 [cxG 0 1] 2 = some [cxG 0 1] := by decide
  refine ⟨hdev, ?_⟩
  exact claim_C1_router_adjacency cfgS dev2 2 [cxG 0 1] 2 [cxG 0 1] hdev hrun
    (cxG 0 1) (by simp) (by decide) (by decide)

/-- **C3 (amended).** For accepted swap-free inputs, the multiset of
non-swap gates of the router's output (compared by kind, parameters,
classical operands and condition — quantum operands are remapped) equals
the multiset of input gates that survive classification: all of them except
zero-operand opaque markers, which `update_to_map` / `update_to_execute`
silently drop.  Every non-swap output gate descends from an input gate, so
the only added gates are of kind `Swap`. -/
theorem claim_C3_router_multiset (cfg : Config) (dev : Device) (nq : Nat)
    (gates : List Gate) (fuel : Nat) (out : List Gate)
    (hsw : ∀ g ∈ gates, notSwap g = true)
    (h : runRouter cfg dev nq gates fuel = some out) :
    ((out.filter notSwap).map ident).Perm ((gates.filter keepG).map ident) ∧
    (∀ g ∈ out, notSwap g = true → ident g ∈ gates.map ident) := by
  have hmain : ((out.filter notSwap).map ident).Perm ((gates.filter keepG).map ident) := by
    unfold runRouter at h
    by_cases hfr : cfg.front
    · rw [if_pos hfr] at h
      split at h
      · exact absurd h (by simp)
      · rename_i r te tm ex heq
        obtain ⟨hperm, hte, htm, hsub, hadj, hor⟩ :=
          updateToMapGo_spec dev (List.range nq) ([] ++ gates) [] te tm ex heq
        have hsw2 : ∀ g ∈ ([] ++ gates : List Gate), notSwap g = true := by
          simpa using hsw
        have hprops : ∀ g ∈ tm ++ te, notSwap g = true ∧ keepG g = true := by
          intro g hg
          rcases List.mem_append.mp hg with hg | hg
          · exact ⟨hsw2 g (htm g hg).1, (htm g hg).2⟩
          · exact ⟨hsw2 g (hte g hg).1, (hte g hg).2⟩
        have hloop := (runLoopFront_spec cfg dev hfr fuel (List.range nq) tm te ex out h
          (fun htm => by
            subst htm
            exact updateToMapGo_empty dev (List.range nq) ([] ++ gates) te ex heq)).1 hprops
        have hexf : ex.filter notSwap = ex :=
          execFilter_map dev (List.range nq) ([] ++ gates) [] te tm ex heq hsw2
        rw [hexf] at hloop
        refine hloop.trans ?_
        have e2 : (ex.map ident ++ (tm ++ te).map ident).Perm
            (ex.map ident ++ te.map ident ++ tm.map ident) := by
          refine List.Perm.trans (List.Perm.append_left _ (by
            simpa using (List.perm_append_comm))) ?_
          simp [List.append_assoc]
        refine e2.trans ?_
        simpa using hperm
    · rw [if_neg hfr] at h
      have hloop := (runLoopSingle_spec cfg dev (by simpa using hfr) fuel
        (List.range nq) gates [] out h).1 hsw
      simpa using hloop
  refine ⟨hmain, ?_⟩
  intro g hg hns
  have : ident g ∈ (out.filter notSwap).map ident :=
    List.mem_map.mpr ⟨g, List.mem_filter.mpr ⟨hg, hns⟩, rfl⟩
  have := hmain.mem_iff.mp this
  obtain ⟨g0, hg0, hid⟩ := List.mem_map.mp this
  exact List.mem_map.mpr ⟨g0, (List.mem_filter.mp hg0).1, hid⟩

/-- Witness for C3's amended statement on a concrete accepted run. -/
theorem claim_C3_router_multiset_witness :
    (([cxG 0 1].filter notSwap).map ident).Perm
      (([cxG 0 1].filter keepG).map ident) :=
  (claim_C3_router_multiset cfgS dev2 2 [cxG 0 1] 2 [cxG 0 1]
    (by decide) (by decide)).1

/-- Counterexample to C3 as stated: a zero-operand barrier is an accepted
input gate, yet the router drops it (`if not qargs: continue`), so the
output's non-swap multiset misses it and no `Swap` accounts for it. -/
theorem claim_C3_counterexample :
    runRouter cfgS dev2 2
      [{ name := "barrier", qargs := [], cargs := [], params := [], cond := none }] 2 =
      some [] := by
  decide

/-- **C5.** On the path 0-1-2-3-4 with no backend properties and 3 virtual
qubits, `ChainLayout.chain(3)` does not return `[0, 1, 2]`: on the very
first extension (0 to 1) the dead-end check dereferences the undefined
attribute `self._undirected_map` (line 134) and the call raises
`AttributeError`. -/
theorem claim_C5_chain_crash :
    chainModel cd5 none 5 3 10 = .error .attrErr := rfl

/-- If no scanned window's score exceeds the running best, the offset loop
of `best_subset` keeps the best it was handed. -/
theorem bsGoRel_stay (cd : ChainDev) (r : Nat → Nat → ℚ) (chain : List Nat) (k : Nat) :
    ∀ m o bestR best,
      (∀ j, o ≤ j → j < o + m →
        windowScoreRel cd r ((chain.drop j).take k) ≤ bestR) →
      bestSubsetGoRel cd r chain k m o bestR best = best := by
  intro m
  induction m with
  | zero => intro o bestR best _; rfl
  | succ m ih =>
    intro o bestR best hle
    simp only [bestSubsetGoRel]
    rw [if_neg (not_lt.mpr (hle o le_rfl (by omega)))]
    exact ih (o + 1) bestR best (fun j h1 h2 => hle j (by omega) (by omega))

/-- If among the scanned offsets `jm` is the first one attaining the
maximum score and that score beats the running best, the offset loop of
`best_subset` returns the window at `jm`. -/
theorem bsGoRel_found (cd : ChainDev) (r : Nat → Nat → ℚ) (chain : List Nat) (k : Nat) :
    ∀ m o bestR best jm,
      o ≤ jm → jm < o + m →
      bestR < windowScoreRel cd r ((chain.drop jm).take k) →
      (∀ j, o ≤ j → j < o + m →
        windowScoreRel cd r ((chain.drop j).take k) ≤
          windowScoreRel cd r ((chain.drop jm).take k)) →
      (∀ j, o ≤ j → j < jm →
        windowScoreRel cd r ((chain.drop j).take k) <
          windowScoreRel cd r ((chain.drop jm).take k)) →
      bestSubsetGoRel cd r chain k m o bestR best = (chain.drop jm).take k := by
  intro m
  induction m with
  | zero => intro o bestR best jm h1 h2 _ _ _; omega
  | succ m ih =>
    intro o bestR best jm h1 h2 hlt hmax hfirst
    simp only [bestSubsetGoRel]
    by_cases ho : jm = o
    · subst ho
      rw [if_pos hlt]
      exact bsGoRel_stay cd r chain k m (jm + 1) _ _
        (fun j hj1 hj2 => hmax j (by omega) (by omega))
    · have hoj : o < jm := by omega
      by_cases himp : bestR < windowScoreRel cd r ((chain.drop o).take k)
      · rw [if_pos himp]
        exact ih (o + 1) _ _ jm (by omega) (by omega) (hfirst o le_rfl hoj)
          (fun j hj1 hj2 => hmax j (by omega) (by omega))
          (fun j hj1 hj2 => hfirst j (by omega) hj2)
      · rw [if_neg himp]
        exact ih (o + 1) bestR best jm (by omega) (by omega) hlt
          (fun j hj1 hj2 => hmax j (by omega) (by omega))
          (fun j hj1 hj2 => hfirst j (by omega) hj2)

/-- **C6** (amended): with backend properties, `best_subset` scores only
the windows at offsets `0 .. len(chain)-k-1` — the final window is never
scored — using the index-based adjacency test of the code
(`sub_set[q+1] not in self.coupling_graph[q]`); it returns the first
scanned window attaining the strictly largest such score provided that
score exceeds the initial 0, and `chain[:k]` when no scanned window
does. -/
theorem claim_C6_best_subset (cd : ChainDev) (r : Nat → Nat → ℚ)
    (chain : List Nat) (k : Nat) :
    ((∀ j < chain.length - k,
        windowScoreRel cd r ((chain.drop j).take k) ≤ 0) →
      bestSubset cd (some r) chain k = chain.take k) ∧
    (∀ jm < chain.length - k,
      0 < windowScoreRel cd r ((chain.drop jm).take k) →
      (∀ j < chain.length - k,
        windowScoreRel cd r ((chain.drop j).take k) ≤
          windowScoreRel cd r ((chain.drop jm).take k)) →
      (∀ j < jm,
        windowScoreRel cd r ((chain.drop j).take k) <
          windowScoreRel cd r ((chain.drop jm).take k)) →
      bestSubset cd (some r) chain k = (chain.drop jm).take k) := by
  constructor
  · intro hle
    exact bsGoRel_stay cd r chain k (chain.length - k) 0 0 (chain.take k)
      (fun j h1 h2 => hle j (by omega))
  · intro jm hjm hpos hmax hfirst
    exact bsGoRel_found cd r chain k (chain.length - k) 0 0 (chain.take k) jm
      (Nat.zero_le jm) (by omega) hpos (fun j h1 h2 => hmax j (by omega))
      (fun j h1 h2 => hfirst j h2)

/-- Witness for C6's amended statement: on the path 0-1-2 with chain
`[0, 1, 2]` and `k = 2`, the only scanned window is `[0, 1]`; its score
is positive and `best_subset` returns it. -/
theorem claim_C6_best_subset_witness :
    (0 : ℚ) < windowScoreRel cd3 r3 [0, 1] ∧
    bestSubset cd3 (some r3) [0, 1, 2] 2 = [0, 1] := by
  have hpos : (0 : ℚ) < windowScoreRel cd3 r3 [0, 1] := by
    simp [windowScoreRel, cd3, r3, List.range_succ]
  exact ⟨hpos, (claim_C6_best_subset cd3 r3 [0, 1, 2] 2).2 0 (by decide)
    hpos
    (fun j hj => by
      norm_num at hj
      subst hj
      exact le_rfl)
    (fun j hj => by omega)⟩

/-- Counterexample to C6 as stated: chain `[0, 1, 2]` on the path 0-1-2
with `k = 2`.  The claim's reading scores both windows and picks
`[1, 2]` (reliability 9/10 beats 1/2); the code's loop over
`range(len(chain) - num_qubits)` never scores the final window and
returns `[0, 1]`. -/
theorem claim_C6_counterexample :
    bestSubset cd3 (some r3) [0, 1, 2] 2 = [0, 1] ∧
    bestSubsetClaim cd3 r3 [0, 1, 2] 2 = [1, 2] := by
  constructor
  · norm_num [bestSubset, bestSubsetGoRel, windowScoreRel, cd3, r3]
  · norm_num [bestSubsetClaim, bestSubsetClaimGo, windowScoreClaim, cd3, r3]

/-- The indexed zig-zag arm equals its zip formulation. -/
theorem zigzagArm_eq_zip : ∀ (l : List Nat),
    (List.range (l.length - 1)).map (fun i => cxG (l.getD (i + 1) 0) (l.getD i 0)) =
      (l.zip (l.drop 1)).map (fun p => cxG p.2 p.1) := by
  intro l
  induction l with
  | nil => rfl
  | cons a t2 ih =>
    cases t2 with
    | nil => rfl
    | cons b t3 =>
      have ht := ih
      simp only [List.length_cons, Nat.add_sub_cancel] at ht
      simp only [List.length_cons, Nat.add_sub_cancel, List.range_succ_eq_map,
        List.map_cons, List.map_map, List.drop_succ_cons, List.drop_zero,
        List.zip_cons_cons]
      congr 1

/-- **C4.** The committed rewrite of a direct cascade with sorted controls
`[a1, …, am]` and target `t` is
`CX(am,am-1), …, CX(a2,a1), CX(a1,t), CX(a2,a1), …, CX(am,am-1)`
(first conjunct, for every control list), and on the S3 instance —
`CX(1,0), CX(2,0), CX(3,0)` on wires 0..3 — the whole pass outputs
exactly `CX(3,2), CX(2,1), CX(1,0), CX(2,1), CX(3,2)`. -/
theorem claim_C4_cascade_rewrite :
    (∀ (cs : List Nat) (t : Nat), emitZigzag cs t = emitZigzagSpec cs t) ∧
    transformRun 4 layers3 =
      some [cxG 3 2, cxG 2 1, cxG 1 0, cxG 2 1, cxG 3 2] := by
  constructor
  · intro cs t
    unfold emitZigzag emitZigzagSpec
    simp only [List.map_reverse, zigzagArm_eq_zip]
    rcases cs with _ | ⟨a, t2⟩ <;> rfl
  · rfl

/-- **C2.** On the two-layer input `[[CX(1,0), CX(4,3)], [CX(2,0), CX(3,4)]]`
over 5 wires the pass records the cascade's replacement zig-zag in
`_extra_layers[1]` — an index `run` never plays back, because
`_extra_layers[i-1]` is only emitted for layers `i >= 1` and no layer
follows the last — so the output keeps only `CX(4,3), CX(3,4)`.  The
dropped gates change the unitary: on the basis state with wire 1 set,
the input flips wire 0 and the output does not, which no global phase
can reconcile since CX-only circuits act as permutation matrices. -/
theorem claim_C2_dropped_cascade :
    transformRun 5 layersC2 = some [cxG 4 3, cxG 3 4] ∧
    evalCx ((layersC2.map (fun l => l.map Prod.snd)).flatten)
      [false, true, false, false, false] =
      some [true, true, false, false, false] ∧
    evalCx [cxG 4 3, cxG 3 4] [false, true, false, false, false] =
      some [false, true, false, false, false] := by
  refine ⟨rfl, rfl, rfl⟩

/-- **C7.** `__init__` reads `kwargs['alpha']` without a guard: with
`alpha` omitted — exactly how `noise_pass_manager_3.py` line 143 calls
`NoiseAdaptiveSwap(coupling_map, backend_properties)` — construction
raises `KeyError` instead of succeeding; when `alpha` is supplied, the
`InvalidAlpha` `TranspilerError` is raised exactly for alpha outside
`[0, 1]`. -/
theorem claim_C7_alpha_validation :
    (∀ kw : Kwargs, kw.alpha = none → initModel kw = .error .keyErrAlpha) ∧
    (∀ a : ℚ,
      initModel { alpha := some a } = .error .invalidAlpha ↔ (a < 0 ∨ 1 < a)) := by
  constructor
  · intro kw h
    unfold initModel
    rw [h]
  · intro a
    unfold initModel
    dsimp only
    by_cases h : 1 < a ∨ a < 0
    · rw [if_pos h]
      exact iff_of_true rfl h.symm
    · rw [if_neg h]
      exact iff_of_false (fun hx => Except.noConfusion hx) (fun hx => h hx.symm)

/-- Witness for C7 at the driver's own call (no alpha) and at a concrete
out-of-range alpha. -/
theorem claim_C7_alpha_validation_witness :
    initModel { } = .error .keyErrAlpha ∧
    initModel { alpha := some 2 } = .error .invalidAlpha := by
  constructor
  · exact claim_C7_alpha_validation.1 { } rfl
  · exact (claim_C7_alpha_validation.2 2).mpr (Or.inr (by norm_num))

end NoiseCompiler
